import Mathlib

/-!
# Verification of the BekoSIRS delivery route optimizer

A shallow embedding of `products/route_optimizer.py` (class `RouteOptimizer`),
together with proofs of the specified properties of `haversine_distance`,
`optimize_route`, `group_by_zone` and `estimate_delivery_windows`.

Modelling conventions:

* Python `float` values (coordinates, distances, times, costs) are modelled as
  rationals `ℚ`.  Python `round(x, 2)` / `round(x, 1)` / `round(x)` are modelled
  by `round2` / `round1` / `round : ℚ → ℤ` (Mathlib's `round`, which rounds
  halves up whereas Python rounds halves to even; no property proved here
  depends on a halfway case).
* The trigonometric core of `haversine_distance` (everything up to and
  including `distance = EARTH_RADIUS_KM * c`) is not computable over `ℚ`; the
  greedy-algorithm model is therefore parametrised by that core, a function
  `trig : ℚ → ℚ → ℚ → ℚ → ℚ`, and applies the source's final
  `round(distance, 2)` itself (`haversineQ`).  Facts that hold for the real
  trigonometric core (such as non-negativity of a great-circle distance) appear
  as explicit hypotheses.  A separate real-valued transcription
  `haversine_distance : ℝ → ℝ → ℝ → ℝ → ℝ` of the full formula is used for the
  algebraic properties of the distance function itself.
* Python dicts with string keys are modelled as association lists
  `List (String × Val)`; the serialisers (`entryDict`, `resultDict`) reproduce
  the exact key strings and insertion order of the dict literals in the source.
-/

namespace BekoSIRS

/-- A Python value appearing in the optimizer's dict outputs. -/
inductive Val where
  | vi : ℤ → Val
  | vq : ℚ → Val
  | vs : String → Val
  | vlist : List Val → Val
  | vdict : List (String × Val) → Val

/-- Python `round(x, 2)` over rationals (halves rounded up, see module note). -/
def round2 (x : ℚ) : ℚ := (round (x * 100) : ℤ) / 100

/-- Python `round(x, 1)` over rationals. -/
def round1 (x : ℚ) : ℚ := (round (x * 10) : ℤ) / 10

/-- `x` is a whole number of hundredths: the form every value returned by the
source's `haversine_distance` has, thanks to its final `round(distance, 2)`. -/
def IsCent (x : ℚ) : Prop := ∃ k : ℤ, x = k / 100

/-- The dataclass `Stop` of `route_optimizer.py` (the two optional
`time_window_*` strings are omitted: they are read by nothing under
verification).  `priority`: 1 = highest, larger = lower urgency. -/
structure Stop where
  id : ℤ
  name : String
  address : String
  latitude : ℚ
  longitude : ℚ
  priority : ℤ
deriving DecidableEq, Repr

/-- A stop supplied to `optimize_route` as a Python dict: any of the six keys
may be absent (`none`). -/
structure StopInput where
  id : Option ℤ := none
  name : Option String := none
  address : Option String := none
  latitude : Option ℚ := none
  longitude : Option ℚ := none
  priority : Option ℤ := none
deriving DecidableEq, Repr

/-- The dict→`Stop` conversion of `optimize_route` (lines 129-138):
`s.get(key, default)` with defaults `0, "", "", 0, 0, 1`. -/
def toStop (s : StopInput) : Stop :=
  { id := s.id.getD 0
    name := s.name.getD ""
    address := s.address.getD ""
    latitude := s.latitude.getD 0
    longitude := s.longitude.getD 0
    priority := s.priority.getD 1 }

/-- A depot dict: `id, name, address, latitude, longitude` (no priority). -/
structure Depot where
  id : ℤ
  name : String
  address : String
  latitude : ℚ
  longitude : ℚ
deriving DecidableEq, Repr

/-- `RouteOptimizer.DEFAULT_DEPOT` (Istanbul Tuzla). -/
def DEFAULT_DEPOT : Depot :=
  { id := 0, name := "Depo", address := "Beko Merkez Depo"
    latitude := 408219 / 10000, longitude := 293094 / 10000 }

/-- The `type` value of a route entry: `start`, `delivery` or `return`
(`ret` here, since `return` is reserved). -/
inductive EntryType where
  | start
  | delivery
  | ret
deriving DecidableEq, Repr

/-- The string the source stores under the `type` key. -/
def EntryType.str : EntryType → String
  | .start => "start"
  | .delivery => "delivery"
  | .ret => "return"

/-- One entry of the produced route (the dicts appended to `route`).
`priority` is `none` for the depot entries, whose dict has no such key;
the `estimated_*` fields are `none` until `estimate_delivery_windows` runs. -/
structure RouteEntry where
  order : ℕ
  type : EntryType
  id : ℤ
  name : String
  address : String
  latitude : ℚ
  longitude : ℚ
  priority : Option ℤ
  distance_from_prev : ℚ
  cumulative_distance : ℚ
  estimated_arrival : Option String := none
  estimated_departure : Option String := none
deriving DecidableEq, Repr

/-- Recover the underlying `Stop` of a delivery entry. -/
def entryStop (e : RouteEntry) : Stop :=
  { id := e.id, name := e.name, address := e.address
    latitude := e.latitude, longitude := e.longitude
    priority := e.priority.getD 1 }

/-- The abstracted trigonometric core of `haversine_distance`: given
`lat1 lon1 lat2 lon2`, the value `EARTH_RADIUS_KM * c` before rounding. -/
abbrev TrigCore : Type := ℚ → ℚ → ℚ → ℚ → ℚ

/-- `RouteOptimizer.haversine_distance` with abstracted trigonometric core:
the source's final step `round(distance, 2)` applied to the core's value. -/
def haversineQ (trig : TrigCore) (lat1 lon1 lat2 lon2 : ℚ) : ℚ :=
  round2 (trig lat1 lon1 lat2 lon2)

/-- The inner `for stop in unvisited` scan of `optimize_route` (lines 166-173),
already specialised past its first iteration: the running best starts at the
first unvisited stop (any finite distance beats the initial
`float('inf')`) and is replaced only on strict improvement (`dist < nearest_dist`). -/
def selBest (trig : TrigCore) (cur : ℚ × ℚ) : Stop × ℚ → List Stop → Stop × ℚ
  | best, [] => best
  | best, s :: rest =>
    let d := haversineQ trig cur.1 cur.2 s.latitude s.longitude
    if d < best.2 then selBest trig cur (s, d) rest else selBest trig cur best rest

/-- Nearest-unvisited-stop selection over a non-empty list `u :: us`. -/
def selectNearest (trig : TrigCore) (cur : ℚ × ℚ) (u : Stop) (us : List Stop) : Stop × ℚ :=
  selBest trig cur (u, haversineQ trig cur.1 cur.2 u.latitude u.longitude) us

theorem selBest_mem (trig : TrigCore) (cur : ℚ × ℚ) :
    ∀ (l : List Stop) (b : Stop × ℚ), (selBest trig cur b l).1 = b.1 ∨ (selBest trig cur b l).1 ∈ l := by
  intro l
  induction l with
  | nil => intro b; left; rfl
  | cons s rest ih =>
    intro b
    simp only [selBest]
    by_cases h : haversineQ trig cur.1 cur.2 s.latitude s.longitude < b.2
    · simp only [if_pos h]
      rcases ih (s, haversineQ trig cur.1 cur.2 s.latitude s.longitude) with h1 | h1
      · right; rw [h1]; exact List.mem_cons_self s rest
      · right; exact List.mem_cons_of_mem s h1
    · simp only [if_neg h]
      rcases ih b with h1 | h1
      · left; exact h1
      · right; exact List.mem_cons_of_mem s h1

theorem selectNearest_mem (trig : TrigCore) (cur : ℚ × ℚ) (u : Stop) (us : List Stop) :
    (selectNearest trig cur u us).1 ∈ u :: us := by
  rcases selBest_mem trig cur us (u, haversineQ trig cur.1 cur.2 u.latitude u.longitude) with h | h
  · rw [selectNearest, h]; exact List.mem_cons_self u us
  · exact List.mem_cons_of_mem u h

/-- The `while unvisited:` loop of `optimize_route` (lines 161-193).  Returns
the delivery entries in visiting order, the final `total_distance`, and the
final current position.  `total` and `cur` are the loop's running state;
`ord` is `len(route)` at entry (the `order` of the next entry).  `fuel` is
always invoked as `unvisited.length`, which decreases by exactly one per
iteration (`list.remove` of a member), so the fuel-out arm is never taken. -/
def nnLoop (trig : TrigCore) : ℕ → (ℚ × ℚ) → List Stop → ℚ → ℕ →
    List RouteEntry × ℚ × ℚ × ℚ
  | _, cur, [], total, _ => ([], total, cur.1, cur.2)
  | 0, cur, _ :: _, total, _ => ([], total, cur.1, cur.2)
  | fuel + 1, cur, u :: us, total, ord =>
    let best := selectNearest trig cur u us
    let total2 := total + best.2
    let e : RouteEntry :=
      { order := ord, type := .delivery, id := best.1.id, name := best.1.name
        address := best.1.address, latitude := best.1.latitude, longitude := best.1.longitude
        priority := some best.1.priority, distance_from_prev := best.2
        cumulative_distance := round2 total2 }
    let rest := nnLoop trig fuel (best.1.latitude, best.1.longitude)
      ((u :: us).erase best.1) total2 (ord + 1)
    (e :: rest.1, rest.2)

/-- The `route[0]` depot-as-start entry (lines 153-159): the depot's fields
spliced in, `distance_from_prev = 0`, `cumulative_distance = 0`. -/
def startEntry (depot : Depot) : RouteEntry :=
  { order := 0, type := .start, id := depot.id, name := depot.name
    address := depot.address, latitude := depot.latitude, longitude := depot.longitude
    priority := none, distance_from_prev := 0, cumulative_distance := 0 }

/-- The depot-as-return entry (lines 202-208). -/
def returnEntry (depot : Depot) (dist total : ℚ) (ord : ℕ) : RouteEntry :=
  { order := ord, type := .ret, id := depot.id, name := depot.name
    address := depot.address, latitude := depot.latitude, longitude := depot.longitude
    priority := none, distance_from_prev := dist, cumulative_distance := round2 total }

/-- The early-return dict of `optimize_route` on an empty stop list
(lines 118-125). -/
structure EmptyResult where
  route : List RouteEntry
  total_distance_km : ℚ
  estimated_time_min : ℚ
  estimated_fuel_cost : ℚ
  message : String
deriving DecidableEq, Repr

/-- The dict returned by `optimize_route` on a non-empty stop list
(lines 216-227). -/
structure FullResult where
  route : List RouteEntry
  stops_count : ℕ
  total_distance_km : ℚ
  driving_time_min : ℤ
  stop_time_min : ℤ
  total_time_min : ℤ
  total_time_hours : ℚ
  estimated_fuel_cost : ℚ
  optimization_method : String
  depot : Depot
deriving DecidableEq, Repr

/-- The priority comparison used by `stop_objects.sort(key=lambda x: x.priority)`. -/
def priLE (a b : Stop) : Prop := a.priority ≤ b.priority

instance : DecidableRel priLE := fun a b => inferInstanceAs (Decidable (a.priority ≤ b.priority))

/-- `stop_objects` after the conversion and priority pre-sort of lines 128-143;
Python's `list.sort` is stable, modelled by `List.insertionSort` (also stable). -/
def sortedStops (stops : List StopInput) : List Stop :=
  List.insertionSort priLE (stops.map toStop)

/-- The result `optimize_route` builds for a non-empty stop list
(lines 127-227). -/
def fullResult (trig : TrigCore) (depot : Depot) (stops : List StopInput)
    (return_to_depot : Bool) : FullResult :=
    let stop_objects := sortedStops stops
    let nn := nnLoop trig stop_objects.length (depot.latitude, depot.longitude) stop_objects 0 1
    let entries := nn.1
    let total1 := nn.2.1
    let pos := (nn.2.2.1, nn.2.2.2)
    let route1 := startEntry depot :: entries
    let totRoute : ℚ × List RouteEntry :=
      if return_to_depot then
        let return_dist := haversineQ trig pos.1 pos.2 depot.latitude depot.longitude
        (total1 + return_dist,
         route1 ++ [returnEntry depot return_dist (total1 + return_dist) route1.length])
      else (total1, route1)
    let total_distance := totRoute.1
    let driving_time_min : ℚ := (total_distance / 30) * 60
    let stop_time_min : ℤ := stop_objects.length * 15
    let total_time_min : ℚ := driving_time_min + (stop_time_min : ℚ)
    { route := totRoute.2
      stops_count := stop_objects.length
      total_distance_km := round2 total_distance
      driving_time_min := round driving_time_min
      stop_time_min := stop_time_min
      total_time_min := round total_time_min
      total_time_hours := round1 (total_time_min / 60)
      estimated_fuel_cost := round2 (total_distance * (5 / 2))
      optimization_method := "Nearest Neighbor (Greedy TSP)"
      depot := depot }

/-- `RouteOptimizer.optimize_route` (lines 103-227), parametrised by the
trigonometric core of the distance function and by `self.depot`.  Stops are
taken as dicts (`StopInput`), the shape every caller in the repository and
every claim uses; the `isinstance` branch accepting ready-made `Stop` objects
(line 139) only skips the conversion. -/
def optimize_route (trig : TrigCore) (depot : Depot) (stops : List StopInput)
    (return_to_depot : Bool) : EmptyResult ⊕ FullResult :=
  match stops with
  | [] =>
    .inl { route := [], total_distance_km := 0, estimated_time_min := 0
           estimated_fuel_cost := 0, message := "No stops provided" }
  | _ => .inr (fullResult trig depot stops return_to_depot)

/-- The produced route, for either result shape. -/
def routeOf : EmptyResult ⊕ FullResult → List RouteEntry
  | .inl r => r.route
  | .inr r => r.route

/-- Project out the non-empty-input result shape. -/
def fullOf : EmptyResult ⊕ FullResult → Option FullResult
  | .inl _ => none
  | .inr r => some r

/-- Serialise a route entry to its Python dict (exact key strings and
insertion order of lines 153-159 / 177-188 / 202-208, plus the keys
`estimate_delivery_windows` may add). -/
def entryDict (e : RouteEntry) : List (String × Val) :=
  [("order", .vi e.order), ("type", .vs e.type.str), ("id", .vi e.id),
   ("name", .vs e.name), ("address", .vs e.address),
   ("latitude", .vq e.latitude), ("longitude", .vq e.longitude)]
  ++ (match e.priority with
      | some p => [("priority", Val.vi p)]
      | none => [])
  ++ [("distance_from_prev", .vq e.distance_from_prev),
      ("cumulative_distance", .vq e.cumulative_distance)]
  ++ (match e.estimated_arrival with
      | some a => [("estimated_arrival", Val.vs a)]
      | none => [])
  ++ (match e.estimated_departure with
      | some d => [("estimated_departure", Val.vs d)]
      | none => [])

/-- Serialise a depot to its dict. -/
def depotDict (d : Depot) : List (String × Val) :=
  [("id", .vi d.id), ("name", .vs d.name), ("address", .vs d.address),
   ("latitude", .vq d.latitude), ("longitude", .vq d.longitude)]

/-- Serialise an `optimize_route` result to its Python dict. -/
def resultDict : EmptyResult ⊕ FullResult → List (String × Val)
  | .inl r =>
    [("route", .vlist (r.route.map (fun e => .vdict (entryDict e)))),
     ("total_distance_km", .vq r.total_distance_km),
     ("estimated_time_min", .vq r.estimated_time_min),
     ("estimated_fuel_cost", .vq r.estimated_fuel_cost),
     ("message", .vs r.message)]
  | .inr r =>
    [("route", .vlist (r.route.map (fun e => .vdict (entryDict e)))),
     ("stops_count", .vi r.stops_count),
     ("total_distance_km", .vq r.total_distance_km),
     ("driving_time_min", .vi r.driving_time_min),
     ("stop_time_min", .vi r.stop_time_min),
     ("total_time_min", .vi r.total_time_min),
     ("total_time_hours", .vq r.total_time_hours),
     ("estimated_fuel_cost", .vq r.estimated_fuel_cost),
     ("optimization_method", .vs r.optimization_method),
     ("depot", .vdict (depotDict r.depot))]

/-! ## Arithmetic helper lemmas -/

theorem IsCent.zero : IsCent 0 := ⟨0, by norm_num⟩

theorem IsCent.add {x y : ℚ} (hx : IsCent x) (hy : IsCent y) : IsCent (x + y) := by
  obtain ⟨k, rfl⟩ := hx
  obtain ⟨m, rfl⟩ := hy
  exact ⟨k + m, by push_cast; ring⟩

theorem IsCent_round2 (x : ℚ) : IsCent (round2 x) := ⟨round (x * 100), rfl⟩

theorem IsCent.round2_eq {x : ℚ} (hx : IsCent x) : round2 x = x := by
  obtain ⟨k, rfl⟩ := hx
  unfold round2
  rw [show (k : ℚ) / 100 * 100 = (k : ℚ) by field_simp, round_intCast]

theorem round2_nonneg {x : ℚ} (hx : 0 ≤ x) : 0 ≤ round2 x := by
  unfold round2
  have h : (0 : ℤ) ≤ round (x * 100) := by
    rw [round_eq]
    have : (0 : ℚ) ≤ x * 100 + 1 / 2 := by positivity
    exact Int.floor_nonneg.mpr this
  positivity

theorem IsCent_haversineQ (trig : TrigCore) (a b c d : ℚ) :
    IsCent (haversineQ trig a b c d) := IsCent_round2 _

theorem haversineQ_nonneg {trig : TrigCore} (htrig : ∀ a b c d, 0 ≤ trig a b c d)
    (a b c d : ℚ) : 0 ≤ haversineQ trig a b c d := round2_nonneg (htrig a b c d)

theorem IsCent_sum : ∀ {l : List ℚ}, (∀ x ∈ l, IsCent x) → IsCent l.sum := by
  intro l
  induction l with
  | nil => intro _; simpa using IsCent.zero
  | cons x xs ih =>
    intro h
    rw [List.sum_cons]
    exact (h x (List.mem_cons_self x xs)).add (ih fun y hy => h y (List.mem_cons_of_mem x hy))

theorem chain_snoc {α : Type} {R : α → α → Prop} :
    ∀ {l : List α} {a b : α}, List.Chain R a l → R (l.getLastD a) b → List.Chain R a (l ++ [b])
  | [], a, b, _, hr => List.Chain.cons (by simpa using hr) List.Chain.nil
  | x :: xs, a, b, h, hr => by
    rcases h with _ | ⟨hax, hxs⟩
    rw [List.getLastD_cons] at hr
    exact List.Chain.cons hax (chain_snoc hxs hr)

/-- Running totals: `partialSums t [d₁, d₂, …] = [t+d₁, t+d₁+d₂, …]`. -/
def partialSums (t : ℚ) : List ℚ → List ℚ
  | [] => []
  | d :: ds => (t + d) :: partialSums (t + d) ds

theorem partialSums_getLastD : ∀ (ds : List ℚ) (t : ℚ), (partialSums t ds).getLastD t = t + ds.sum
  | [], t => by simp [partialSums]
  | d :: ds, t => by
    rw [partialSums, List.getLastD_cons, partialSums_getLastD ds (t + d)]
    simp
    ring

theorem partialSums_chain : ∀ (ds : List ℚ) (t : ℚ), (∀ d ∈ ds, 0 ≤ d) →
    List.Chain (· ≤ ·) t (partialSums t ds)
  | [], t, _ => List.Chain.nil
  | d :: ds, t, h => by
    rw [partialSums]
    refine List.Chain.cons ?_ (partialSums_chain ds (t + d) fun x hx => h x (List.mem_cons_of_mem d hx))
    have := h d (List.mem_cons_self d ds)
    linarith

/-! ## Invariants of the nearest-neighbour loop -/

/-- The selection pair stays coherent: its recorded distance is the Haversine
distance from the current position to the selected stop. -/
theorem selBest_coh (trig : TrigCore) (cur : ℚ × ℚ) :
    ∀ (l : List Stop) (b : Stop × ℚ),
      b.2 = haversineQ trig cur.1 cur.2 b.1.latitude b.1.longitude →
      (selBest trig cur b l).2 =
        haversineQ trig cur.1 cur.2 (selBest trig cur b l).1.latitude
          (selBest trig cur b l).1.longitude := by
  intro l
  induction l with
  | nil => intro b hb; exact hb
  | cons s rest ih =>
    intro b hb
    simp only [selBest]
    by_cases h : haversineQ trig cur.1 cur.2 s.latitude s.longitude < b.2
    · simp only [if_pos h]
      exact ih (s, haversineQ trig cur.1 cur.2 s.latitude s.longitude) rfl
    · simp only [if_neg h]
      exact ih b hb

theorem selectNearest_coh (trig : TrigCore) (cur : ℚ × ℚ) (u : Stop) (us : List Stop) :
    (selectNearest trig cur u us).2 =
      haversineQ trig cur.1 cur.2 (selectNearest trig cur u us).1.latitude
        (selectNearest trig cur u us).1.longitude :=
  selBest_coh trig cur us (u, haversineQ trig cur.1 cur.2 u.latitude u.longitude) rfl

/-- The per-step relation between consecutive route entries: the later entry's
`distance_from_prev` is the Haversine distance from the earlier entry. -/
def distRel (trig : TrigCore) (a b : RouteEntry) : Prop :=
  b.distance_from_prev = haversineQ trig a.latitude a.longitude b.latitude b.longitude

/-- Master invariant of `nnLoop`: the produced entries are a permutation of the
unvisited stops, are all deliveries, link up by Haversine distances, and carry
exact running totals. -/
theorem nnLoop_invariant (trig : TrigCore) :
    ∀ (n : ℕ) (l : List Stop) (cur : ℚ × ℚ) (total : ℚ) (ord : ℕ), l.length = n →
      (((nnLoop trig n cur l total ord).1.map entryStop).Perm l) ∧
      (∀ e ∈ (nnLoop trig n cur l total ord).1, e.type = .delivery) ∧
      (∀ e ∈ (nnLoop trig n cur l total ord).1,
        ∃ la lo, e.distance_from_prev = haversineQ trig la lo e.latitude e.longitude) ∧
      ((nnLoop trig n cur l total ord).2.1 =
        total + ((nnLoop trig n cur l total ord).1.map (·.distance_from_prev)).sum) ∧
      (IsCent total →
        (nnLoop trig n cur l total ord).1.map (·.cumulative_distance) =
          partialSums total ((nnLoop trig n cur l total ord).1.map (·.distance_from_prev))) ∧
      (∀ a : RouteEntry, a.latitude = cur.1 → a.longitude = cur.2 →
        List.Chain (distRel trig) a (nnLoop trig n cur l total ord).1 ∧
        ((nnLoop trig n cur l total ord).1.getLastD a).latitude = (nnLoop trig n cur l total ord).2.2.1 ∧
        ((nnLoop trig n cur l total ord).1.getLastD a).longitude = (nnLoop trig n cur l total ord).2.2.2) := by
  intro n
  induction n with
  | zero =>
    intro l cur total ord hn
    obtain rfl : l = [] := List.eq_nil_of_length_eq_zero hn
    simp only [nnLoop]
    refine ⟨List.Perm.refl _, by simp, by simp, by simp, by simp [partialSums], ?_⟩
    intro a ha hb
    exact ⟨List.Chain.nil, by simpa using ha, by simpa using hb⟩
  | succ n ih =>
    intro l cur total ord hn
    cases l with
    | nil => simp at hn
    | cons u us =>
      have hmem : (selectNearest trig cur u us).1 ∈ u :: us := selectNearest_mem trig cur u us
      have hlen : ((u :: us).erase (selectNearest trig cur u us).1).length = n := by
        rw [List.length_erase_of_mem hmem]
        simp only [List.length_cons] at hn ⊢
        omega
      obtain ⟨ihPerm, ihTy, ihHav, ihTot, ihCum, ihChain⟩ :=
        ih ((u :: us).erase (selectNearest trig cur u us).1)
          ((selectNearest trig cur u us).1.latitude, (selectNearest trig cur u us).1.longitude)
          (total + (selectNearest trig cur u us).2) (ord + 1) hlen
      have hcoh := selectNearest_coh trig cur u us
      rw [show nnLoop trig (n + 1) cur (u :: us) total ord =
        ({ order := ord, type := .delivery, id := (selectNearest trig cur u us).1.id
           name := (selectNearest trig cur u us).1.name
           address := (selectNearest trig cur u us).1.address
           latitude := (selectNearest trig cur u us).1.latitude
           longitude := (selectNearest trig cur u us).1.longitude
           priority := some (selectNearest trig cur u us).1.priority
           distance_from_prev := (selectNearest trig cur u us).2
           cumulative_distance := round2 (total + (selectNearest trig cur u us).2) } ::
          (nnLoop trig n ((selectNearest trig cur u us).1.latitude, (selectNearest trig cur u us).1.longitude)
            ((u :: us).erase (selectNearest trig cur u us).1)
            (total + (selectNearest trig cur u us).2) (ord + 1)).1,
         (nnLoop trig n ((selectNearest trig cur u us).1.latitude, (selectNearest trig cur u us).1.longitude)
            ((u :: us).erase (selectNearest trig cur u us).1)
            (total + (selectNearest trig cur u us).2) (ord + 1)).2) from rfl]
      refine ⟨?_, ?_, ?_, ?_, ?_, ?_⟩
      · simp only [List.map_cons]
        have h1 : entryStop
            { order := ord, type := .delivery, id := (selectNearest trig cur u us).1.id
              name := (selectNearest trig cur u us).1.name
              address := (selectNearest trig cur u us).1.address
              latitude := (selectNearest trig cur u us).1.latitude
              longitude := (selectNearest trig cur u us).1.longitude
              priority := some (selectNearest trig cur u us).1.priority
              distance_from_prev := (selectNearest trig cur u us).2
              cumulative_distance := round2 (total + (selectNearest trig cur u us).2) }
            = (selectNearest trig cur u us).1 := rfl
        rw [h1]
        exact ((ihPerm.cons _).trans (List.perm_cons_erase hmem).symm)
      · intro e he
        rcases List.mem_cons.mp he with rfl | he2
        · rfl
        · exact ihTy e he2
      · intro e he
        rcases List.mem_cons.mp he with rfl | he2
        · exact ⟨cur.1, cur.2, hcoh⟩
        · exact ihHav e he2
      · simp only [List.map_cons, List.sum_cons]
        rw [ihTot]
        ring
      · intro hc
        have hcent2 : IsCent (total + (selectNearest trig cur u us).2) := by
          refine hc.add ?_
          rw [hcoh]
          exact IsCent_haversineQ trig _ _ _ _
        simp only [List.map_cons]
        rw [partialSums, ihCum hcent2, hcent2.round2_eq]
      · intro a ha hb
        obtain ⟨hch, hla, hlo⟩ := ihChain
          ⟨ord, .delivery, (selectNearest trig cur u us).1.id, (selectNearest trig cur u us).1.name,
            (selectNearest trig cur u us).1.address, (selectNearest trig cur u us).1.latitude,
            (selectNearest trig cur u us).1.longitude, some (selectNearest trig cur u us).1.priority,
            (selectNearest trig cur u us).2, round2 (total + (selectNearest trig cur u us).2),
            none, none⟩ rfl rfl
        refine ⟨List.Chain.cons ?_ hch, ?_, ?_⟩
        · show distRel trig a _
          unfold distRel
          simp only
          rw [hcoh, ha, hb]
        · rw [List.getLastD_cons]; exact hla
        · rw [List.getLastD_cons]; exact hlo

/-! ## List helper lemmas -/

theorem getLast?_cons_getLastD {α : Type} : ∀ (l : List α) (a : α),
    (a :: l).getLast? = some (l.getLastD a)
  | [], _ => rfl
  | b :: l, a => by
    rw [List.getLast?_cons_cons, getLast?_cons_getLastD l b, List.getLastD_cons]

theorem getLastD_map {α β : Type} (f : α → β) : ∀ (l : List α) (a : α),
    (l.map f).getLastD (f a) = f (l.getLastD a)
  | [], _ => rfl
  | b :: l, a => by
    rw [List.map_cons, List.getLastD_cons, List.getLastD_cons, getLastD_map f l b]

theorem getLastD_concat {α : Type} (b a : α) (l : List α) : (l ++ [b]).getLastD a = b := by
  rw [List.getLastD_eq_getLast?, List.getLast?_concat, Option.getD_some]

/-! ## C1: route completeness and shape -/

/-- **C1.** For a non-empty input list, the route is the depot-as-start entry,
then a block of delivery entries whose underlying stops are a permutation of
the converted input stops (each input stop exactly once, duplicates counted,
whatever the priorities), then — exactly when `return_to_depot` — a final
depot-as-return entry. -/
theorem route_completeness (trig : TrigCore) (depot : Depot) (stops : List StopInput)
    (rtd : Bool) (h : stops ≠ []) :
    ∃ body tail,
      routeOf (optimize_route trig depot stops rtd) = startEntry depot :: body ++ tail ∧
      (body.map entryStop).Perm (stops.map toStop) ∧
      (∀ e ∈ body, e.type = .delivery) ∧
      (rtd = true → ∃ r, tail = [r] ∧ r.type = .ret ∧ r.id = depot.id ∧ r.name = depot.name ∧
        r.address = depot.address ∧ r.latitude = depot.latitude ∧ r.longitude = depot.longitude) ∧
      (rtd = false → tail = []) := by
  obtain ⟨hPerm, hTy, -, -, -, -⟩ :=
    nnLoop_invariant trig (sortedStops stops).length (sortedStops stops)
      (depot.latitude, depot.longitude) 0 1 rfl
  have hPerm2 := hPerm.trans (List.perm_insertionSort priLE (stops.map toStop))
  cases stops with
  | nil => exact absurd rfl h
  | cons s rest =>
    cases rtd with
    | false =>
      refine ⟨(nnLoop trig (sortedStops (s :: rest)).length
        (depot.latitude, depot.longitude) (sortedStops (s :: rest)) 0 1).1, [], ?_,
        hPerm2, hTy, by simp, fun _ => rfl⟩
      simp [optimize_route, routeOf, fullResult]
    | true =>
      refine ⟨(nnLoop trig (sortedStops (s :: rest)).length
        (depot.latitude, depot.longitude) (sortedStops (s :: rest)) 0 1).1,
        [returnEntry depot
          (haversineQ trig
            (nnLoop trig (sortedStops (s :: rest)).length (depot.latitude, depot.longitude)
              (sortedStops (s :: rest)) 0 1).2.2.1
            (nnLoop trig (sortedStops (s :: rest)).length (depot.latitude, depot.longitude)
              (sortedStops (s :: rest)) 0 1).2.2.2
            depot.latitude depot.longitude)
          ((nnLoop trig (sortedStops (s :: rest)).length (depot.latitude, depot.longitude)
              (sortedStops (s :: rest)) 0 1).2.1 +
            haversineQ trig
              (nnLoop trig (sortedStops (s :: rest)).length (depot.latitude, depot.longitude)
                (sortedStops (s :: rest)) 0 1).2.2.1
              (nnLoop trig (sortedStops (s :: rest)).length (depot.latitude, depot.longitude)
                (sortedStops (s :: rest)) 0 1).2.2.2
              depot.latitude depot.longitude)
          ((nnLoop trig (sortedStops (s :: rest)).length (depot.latitude, depot.longitude)
              (sortedStops (s :: rest)) 0 1).1.length + 1)], ?_,
        hPerm2, hTy, ?_, by simp⟩
      · show routeOf (Sum.inr (fullResult trig depot (s :: rest) true)) = _
        simp [routeOf, fullResult, List.cons_append]
      · intro _
        exact ⟨_, rfl, rfl, rfl, rfl, rfl, rfl, rfl⟩

/-- Witness for C1: one stop, `return_to_depot = true`. -/
theorem route_completeness_witness :
    ([({} : StopInput)] ≠ []) ∧
    (∃ body tail,
      routeOf (optimize_route (fun _ _ _ _ => 1) DEFAULT_DEPOT [{}] true) =
        startEntry DEFAULT_DEPOT :: body ++ tail ∧
      (body.map entryStop).Perm ([({} : StopInput)].map toStop) ∧
      (∀ e ∈ body, e.type = .delivery) ∧
      (true = true → ∃ r, tail = [r] ∧ r.type = .ret ∧ r.id = DEFAULT_DEPOT.id ∧
        r.name = DEFAULT_DEPOT.name ∧ r.address = DEFAULT_DEPOT.address ∧
        r.latitude = DEFAULT_DEPOT.latitude ∧ r.longitude = DEFAULT_DEPOT.longitude) ∧
      (true = false → tail = [])) :=
  ⟨by simp, route_completeness (fun _ _ _ _ => 1) DEFAULT_DEPOT [{}] true (by simp)⟩

/-! ## C4: the per-entry distance fields -/

theorem entryDict_lookup (e : RouteEntry) :
    (entryDict e).lookup "distance_from_prev" = some (.vq e.distance_from_prev) ∧
    (entryDict e).lookup "cumulative_distance" = some (.vq e.cumulative_distance) ∧
    (entryDict e).lookup "distance_from_previous" = none := by
  rcases e with ⟨o, ty, i, nm, ad, la, lo, pr, dp, cd, ar, de⟩
  cases pr <;> cases ar <;> cases de <;>
    simp [entryDict, List.lookup]

/-- **C4 (counterexample).** The claim names the per-entry field
`distance_from_previous`; the dicts built by `optimize_route` carry no such
key (the key is `distance_from_prev`): here, the second entry of a concrete
produced route. -/
theorem no_distance_from_previous_key :
    ∃ e es, routeOf (optimize_route (fun _ _ _ _ => 1) DEFAULT_DEPOT [{}] false) = e :: es ∧
      ∀ x ∈ e :: es, (entryDict x).lookup "distance_from_previous" = none := by
  refine ⟨_, _, rfl, ?_⟩
  intro x _
  exact (entryDict_lookup x).2.2

/-- **C4 (amended).** Every entry's dict stores the distance to the prior
entry under the key `distance_from_prev` (not `distance_from_previous`),
alongside `cumulative_distance`; and consecutive route entries are genuinely
linked: each entry's `distance_from_prev` is the Haversine distance from the
previous entry's coordinates to its own. -/
theorem entry_distance_fields (trig : TrigCore) (depot : Depot) (stops : List StopInput)
    (rtd : Bool) :
    (∀ e ∈ routeOf (optimize_route trig depot stops rtd),
      (entryDict e).lookup "distance_from_prev" = some (.vq e.distance_from_prev) ∧
      (entryDict e).lookup "cumulative_distance" = some (.vq e.cumulative_distance) ∧
      (entryDict e).lookup "distance_from_previous" = none) ∧
    List.Chain' (distRel trig) (routeOf (optimize_route trig depot stops rtd)) := by
  refine ⟨fun e _ => entryDict_lookup e, ?_⟩
  obtain ⟨-, -, -, -, -, hChain⟩ :=
    nnLoop_invariant trig (sortedStops stops).length (sortedStops stops)
      (depot.latitude, depot.longitude) 0 1 rfl
  obtain ⟨hch, hla, hlo⟩ := hChain (startEntry depot) rfl rfl
  cases stops with
  | nil => exact trivial
  | cons s rest =>
    cases rtd with
    | false =>
      show List.Chain' (distRel trig) (routeOf (Sum.inr (fullResult trig depot (s :: rest) false)))
      have hroute : routeOf (Sum.inr (fullResult trig depot (s :: rest) false)) =
          startEntry depot :: (nnLoop trig (sortedStops (s :: rest)).length
            (depot.latitude, depot.longitude) (sortedStops (s :: rest)) 0 1).1 := by
        simp [routeOf, fullResult]
      rw [hroute]
      exact hch
    | true =>
      show List.Chain' (distRel trig) (routeOf (Sum.inr (fullResult trig depot (s :: rest) true)))
      have hroute : routeOf (Sum.inr (fullResult trig depot (s :: rest) true)) =
          startEntry depot :: ((nnLoop trig (sortedStops (s :: rest)).length
            (depot.latitude, depot.longitude) (sortedStops (s :: rest)) 0 1).1 ++
            [returnEntry depot
              (haversineQ trig
                (nnLoop trig (sortedStops (s :: rest)).length (depot.latitude, depot.longitude)
                  (sortedStops (s :: rest)) 0 1).2.2.1
                (nnLoop trig (sortedStops (s :: rest)).length (depot.latitude, depot.longitude)
                  (sortedStops (s :: rest)) 0 1).2.2.2
                depot.latitude depot.longitude)
              ((nnLoop trig (sortedStops (s :: rest)).length (depot.latitude, depot.longitude)
                  (sortedStops (s :: rest)) 0 1).2.1 +
                haversineQ trig
                  (nnLoop trig (sortedStops (s :: rest)).length (depot.latitude, depot.longitude)
                    (sortedStops (s :: rest)) 0 1).2.2.1
                  (nnLoop trig (sortedStops (s :: rest)).length (depot.latitude, depot.longitude)
                    (sortedStops (s :: rest)) 0 1).2.2.2
                  depot.latitude depot.longitude)
              ((nnLoop trig (sortedStops (s :: rest)).length (depot.latitude, depot.longitude)
                  (sortedStops (s :: rest)) 0 1).1.length + 1)]) := by
        simp [routeOf, fullResult, List.cons_append]
      rw [hroute]
      refine chain_snoc hch ?_
      show (returnEntry _ _ _ _).distance_from_prev = haversineQ trig _ _ _ _
      rw [returnEntry]
      simp only
      rw [hla, hlo]

/-! ## C6: cumulative distance -/

/-- **C6.** Under the (true of the real Haversine core) hypothesis that the
distance core is non-negative, `cumulative_distance` is non-decreasing along
the produced route, and the last entry's cumulative distance is the sum of all
entries' `distance_from_prev`. -/
theorem cumulative_monotone (trig : TrigCore) (depot : Depot) (stops : List StopInput)
    (rtd : Bool) (htrig : ∀ a b c d, 0 ≤ trig a b c d) :
    List.Chain' (fun a b => a.cumulative_distance ≤ b.cumulative_distance)
      (routeOf (optimize_route trig depot stops rtd)) ∧
    ∀ l, (routeOf (optimize_route trig depot stops rtd)).getLast? = some l →
      l.cumulative_distance =
        ((routeOf (optimize_route trig depot stops rtd)).map (·.distance_from_prev)).sum := by
  obtain ⟨-, -, hHav, hTot, hCum, -⟩ :=
    nnLoop_invariant trig (sortedStops stops).length (sortedStops stops)
      (depot.latitude, depot.longitude) 0 1 rfl
  cases stops with
  | nil =>
    constructor
    · exact trivial
    · intro l hl
      simp [optimize_route, routeOf] at hl
  | cons s rest =>
    set nn := nnLoop trig (sortedStops (s :: rest)).length
      (depot.latitude, depot.longitude) (sortedStops (s :: rest)) 0 1 with hnn
    have hdsPos : ∀ d ∈ nn.1.map (·.distance_from_prev), 0 ≤ d := by
      intro d hd
      obtain ⟨e, he, rfl⟩ := List.mem_map.mp hd
      obtain ⟨la, lo, heq⟩ := hHav e he
      rw [heq]
      exact haversineQ_nonneg htrig la lo e.latitude e.longitude
    have hdsCent : ∀ d ∈ nn.1.map (·.distance_from_prev), IsCent d := by
      intro d hd
      obtain ⟨e, he, rfl⟩ := List.mem_map.mp hd
      obtain ⟨la, lo, heq⟩ := hHav e he
      rw [heq]
      exact IsCent_haversineQ trig la lo e.latitude e.longitude
    have hcum : nn.1.map (·.cumulative_distance) =
        partialSums 0 (nn.1.map (·.distance_from_prev)) := hCum IsCent.zero
    have htot : nn.2.1 = (nn.1.map (·.distance_from_prev)).sum := by
      rw [hTot]; ring
    have hchainE : List.Chain (fun a b => a.cumulative_distance ≤ b.cumulative_distance)
        (startEntry depot) nn.1 := by
      refine (List.chain_map (fun e : RouteEntry => e.cumulative_distance)).mp ?_
      rw [hcum]
      exact partialSums_chain _ 0 hdsPos
    have hlastE : (nn.1.getLastD (startEntry depot)).cumulative_distance =
        (nn.1.map (·.distance_from_prev)).sum := by
      have h1 :=
        (getLastD_map (fun e : RouteEntry => e.cumulative_distance) nn.1 (startEntry depot)).symm
      rw [h1, hcum, show (startEntry depot).cumulative_distance = (0 : ℚ) from rfl,
        partialSums_getLastD]
      ring
    cases rtd with
    | false =>
      have hroute : routeOf (optimize_route trig depot (s :: rest) false) =
          startEntry depot :: nn.1 := by
        simp [optimize_route, routeOf, fullResult]
      rw [hroute]
      constructor
      · exact hchainE
      · intro l hl
        rw [getLast?_cons_getLastD] at hl
        obtain rfl : nn.1.getLastD (startEntry depot) = l := Option.some.inj hl
        rw [hlastE, List.map_cons, List.sum_cons,
          show (startEntry depot).distance_from_prev = (0 : ℚ) from rfl]
        ring
    | true =>
      have hrd : 0 ≤ haversineQ trig nn.2.2.1 nn.2.2.2 depot.latitude depot.longitude :=
        haversineQ_nonneg htrig _ _ _ _
      have hcentTot : IsCent nn.2.1 := by
        rw [htot]
        exact IsCent_sum hdsCent
      have hcentBoth : IsCent (nn.2.1 + haversineQ trig nn.2.2.1 nn.2.2.2
          depot.latitude depot.longitude) :=
        hcentTot.add (IsCent_haversineQ trig _ _ _ _)
      have hroute : routeOf (optimize_route trig depot (s :: rest) true) =
          startEntry depot :: (nn.1 ++
            [returnEntry depot (haversineQ trig nn.2.2.1 nn.2.2.2 depot.latitude depot.longitude)
              (nn.2.1 + haversineQ trig nn.2.2.1 nn.2.2.2 depot.latitude depot.longitude)
              (nn.1.length + 1)]) := by
        simp [optimize_route, routeOf, fullResult, List.cons_append]
      rw [hroute]
      have hretcum : (returnEntry depot
          (haversineQ trig nn.2.2.1 nn.2.2.2 depot.latitude depot.longitude)
          (nn.2.1 + haversineQ trig nn.2.2.1 nn.2.2.2 depot.latitude depot.longitude)
          (nn.1.length + 1)).cumulative_distance =
          nn.2.1 + haversineQ trig nn.2.2.1 nn.2.2.2 depot.latitude depot.longitude := by
        rw [returnEntry]
        exact hcentBoth.round2_eq
      constructor
      · refine chain_snoc hchainE ?_
        show (nn.1.getLastD (startEntry depot)).cumulative_distance ≤ _
        rw [hlastE, hretcum, htot]
        linarith
      · intro l hl
        rw [getLast?_cons_getLastD, getLastD_concat] at hl
        obtain rfl := Option.some.inj hl
        rw [hretcum, htot]
        rw [List.map_cons, List.map_append, List.sum_cons, List.sum_append,
          show (startEntry depot).distance_from_prev = (0 : ℚ) from rfl]
        simp [returnEntry]

/-- Witness for C6: the constant-1 distance core, one stop, with return. -/
theorem cumulative_monotone_witness :
    (∀ a b c d : ℚ, 0 ≤ (fun _ _ _ _ => (1 : ℚ)) a b c d) ∧
    (List.Chain' (fun a b => a.cumulative_distance ≤ b.cumulative_distance)
      (routeOf (optimize_route (fun _ _ _ _ => 1) DEFAULT_DEPOT [{}] true)) ∧
    ∀ l, (routeOf (optimize_route (fun _ _ _ _ => 1) DEFAULT_DEPOT [{}] true)).getLast? = some l →
      l.cumulative_distance =
        ((routeOf (optimize_route (fun _ _ _ _ => 1) DEFAULT_DEPOT [{}] true)).map
          (·.distance_from_prev)).sum) :=
  ⟨fun _ _ _ _ => by norm_num,
   cumulative_monotone (fun _ _ _ _ => 1) DEFAULT_DEPOT [{}] true (fun _ _ _ _ => by norm_num)⟩

/-! ## C7: aggregate time and cost fields -/

theorem nnLoop_total_IsCent (trig : TrigCore) (n : ℕ) (l : List Stop) (cur : ℚ × ℚ)
    (ord : ℕ) (hn : l.length = n) : IsCent (nnLoop trig n cur l 0 ord).2.1 := by
  obtain ⟨-, -, hHav, hTot, -, -⟩ := nnLoop_invariant trig n l cur 0 ord hn
  rw [hTot]
  refine IsCent.zero.add (IsCent_sum ?_)
  intro d hd
  obtain ⟨e, he, rfl⟩ := List.mem_map.mp hd
  obtain ⟨la, lo, heq⟩ := hHav e he
  rw [heq]
  exact IsCent_haversineQ trig la lo e.latitude e.longitude

/-- **C7 (amended).** For a non-empty stop list the returned aggregates are the
*rounded* values of the claimed formulas: `stop_time_min = count × 15` and
`total_time_min = driving_time_min + stop_time_min` hold exactly, while
`driving_time_min` is `round((total_distance_km / 30) × 60)` and
`estimated_fuel_cost` is `round₂(total_distance_km × 2.5)`. -/
theorem aggregate_formulas (trig : TrigCore) (depot : Depot) (stops : List StopInput)
    (rtd : Bool) (h : stops ≠ []) :
    ∃ r : FullResult, optimize_route trig depot stops rtd = .inr r ∧
      r.stops_count = stops.length ∧
      r.driving_time_min = round (r.total_distance_km / 30 * 60) ∧
      r.stop_time_min = (stops.length : ℤ) * 15 ∧
      r.total_time_min = r.driving_time_min + r.stop_time_min ∧
      r.estimated_fuel_cost = round2 (r.total_distance_km * (5 / 2)) := by
  cases stops with
  | nil => exact absurd rfl h
  | cons s rest =>
    set nn := nnLoop trig (sortedStops (s :: rest)).length
      (depot.latitude, depot.longitude) (sortedStops (s :: rest)) 0 1 with hnn
    have hcentTot : IsCent nn.2.1 :=
      nnLoop_total_IsCent trig (sortedStops (s :: rest)).length (sortedStops (s :: rest))
        (depot.latitude, depot.longitude) 1 rfl
    have hcount : (sortedStops (s :: rest)).length = (s :: rest).length := by
      rw [sortedStops, List.length_insertionSort, List.length_map]
    cases rtd with
    | false =>
      refine ⟨_, rfl, ?_, ?_, ?_, ?_, ?_⟩
      · show (sortedStops (s :: rest)).length = (s :: rest).length
        exact hcount
      · show round (nn.2.1 / 30 * 60) = round (round2 nn.2.1 / 30 * 60)
        rw [hcentTot.round2_eq]
      · show ((sortedStops (s :: rest)).length : ℤ) * 15 = ((s :: rest).length : ℤ) * 15
        rw [hcount]
      · show round (nn.2.1 / 30 * 60 + (((sortedStops (s :: rest)).length : ℤ) * 15 : ℤ)) =
          round (nn.2.1 / 30 * 60) + ((sortedStops (s :: rest)).length : ℤ) * 15
        exact round_add_int _ _
      · show round2 (nn.2.1 * (5 / 2)) = round2 (round2 nn.2.1 * (5 / 2))
        rw [hcentTot.round2_eq]
    | true =>
      have hcentBoth : IsCent (nn.2.1 +
          haversineQ trig nn.2.2.1 nn.2.2.2 depot.latitude depot.longitude) :=
        hcentTot.add (IsCent_haversineQ trig _ _ _ _)
      refine ⟨_, rfl, ?_, ?_, ?_, ?_, ?_⟩
      · show (sortedStops (s :: rest)).length = (s :: rest).length
        exact hcount
      · show round ((nn.2.1 + haversineQ trig nn.2.2.1 nn.2.2.2 depot.latitude
            depot.longitude) / 30 * 60) =
          round (round2 (nn.2.1 + haversineQ trig nn.2.2.1 nn.2.2.2 depot.latitude
            depot.longitude) / 30 * 60)
        rw [hcentBoth.round2_eq]
      · show ((sortedStops (s :: rest)).length : ℤ) * 15 = ((s :: rest).length : ℤ) * 15
        rw [hcount]
      · show round ((nn.2.1 + haversineQ trig nn.2.2.1 nn.2.2.2 depot.latitude
            depot.longitude) / 30 * 60 + (((sortedStops (s :: rest)).length : ℤ) * 15 : ℤ)) =
          round ((nn.2.1 + haversineQ trig nn.2.2.1 nn.2.2.2 depot.latitude
            depot.longitude) / 30 * 60) + ((sortedStops (s :: rest)).length : ℤ) * 15
        exact round_add_int _ _
      · show round2 ((nn.2.1 + haversineQ trig nn.2.2.1 nn.2.2.2 depot.latitude
            depot.longitude) * (5 / 2)) =
          round2 (round2 (nn.2.1 + haversineQ trig nn.2.2.1 nn.2.2.2 depot.latitude
            depot.longitude) * (5 / 2))
        rw [hcentBoth.round2_eq]

/-- Witness for C7 at a concrete input. -/
theorem aggregate_formulas_witness :
    ([({} : StopInput)] ≠ []) ∧
    (∃ r : FullResult, optimize_route (fun _ _ _ _ => 1) DEFAULT_DEPOT [{}] true = .inr r ∧
      r.stops_count = [({} : StopInput)].length ∧
      r.driving_time_min = round (r.total_distance_km / 30 * 60) ∧
      r.stop_time_min = (([({} : StopInput)].length : ℕ) : ℤ) * 15 ∧
      r.total_time_min = r.driving_time_min + r.stop_time_min ∧
      r.estimated_fuel_cost = round2 (r.total_distance_km * (5 / 2))) :=
  ⟨by simp, aggregate_formulas (fun _ _ _ _ => 1) DEFAULT_DEPOT [{}] true (by simp)⟩

/-- **C7 (counterexample).** The aggregates are rounded before being returned,
so the exact equation `driving_time_min = (total_distance / 30) × 60` of the
claim fails: with a distance core returning `0.01` km (a value the real
Haversine formula produces for points about 10 m apart), one stop and no
return leg, the result has `total_distance_km = 0.01` but
`driving_time_min = 0 ≠ 0.02`. -/
theorem aggregate_formulas_cx :
    ∃ r : FullResult,
      optimize_route (fun _ _ _ _ => 1 / 100) DEFAULT_DEPOT [{}] false = .inr r ∧
      r.total_distance_km = 1 / 100 ∧ r.driving_time_min = 0 ∧
      ((r.driving_time_min : ℚ) ≠ r.total_distance_km / 30 * 60) := by
  have hsorted : sortedStops [{}] = [⟨0, "", "", 0, 0, 1⟩] := by
    simp [sortedStops, toStop, List.insertionSort]
  have hhav : ∀ a b c d : ℚ, haversineQ (fun _ _ _ _ => 1 / 100) a b c d = 1 / 100 := by
    intro a b c d
    rw [haversineQ, round2]
    norm_num
  have hnn : nnLoop (fun _ _ _ _ => 1 / 100) 1
      (DEFAULT_DEPOT.latitude, DEFAULT_DEPOT.longitude) [⟨0, "", "", 0, 0, 1⟩] 0 1 =
      ([⟨1, .delivery, 0, "", "", 0, 0, some 1, 1 / 100, 1 / 100, none, none⟩],
        1 / 100, 0, 0) := by
    rw [nnLoop]
    simp only [selectNearest, selBest, hhav, List.erase_cons_head, nnLoop]
    norm_num [round2]
  refine ⟨_, rfl, ?_, ?_, ?_⟩
  · show round2 (nnLoop (fun _ _ _ _ => 1 / 100) (sortedStops [{}]).length
      (DEFAULT_DEPOT.latitude, DEFAULT_DEPOT.longitude) (sortedStops [{}]) 0 1).2.1 = 1 / 100
    rw [hsorted]
    norm_num [hnn, round2]
  · show round ((nnLoop (fun _ _ _ _ => 1 / 100) (sortedStops [{}]).length
      (DEFAULT_DEPOT.latitude, DEFAULT_DEPOT.longitude) (sortedStops [{}]) 0 1).2.1 / 30 * 60) = 0
    rw [hsorted]
    norm_num [hnn, round_eq]
  · show (↑(round ((nnLoop (fun _ _ _ _ => 1 / 100) (sortedStops [{}]).length
      (DEFAULT_DEPOT.latitude, DEFAULT_DEPOT.longitude) (sortedStops [{}]) 0 1).2.1 / 30 * 60)) : ℚ) ≠
      round2 (nnLoop (fun _ _ _ _ => 1 / 100) (sortedStops [{}]).length
        (DEFAULT_DEPOT.latitude, DEFAULT_DEPOT.longitude) (sortedStops [{}]) 0 1).2.1 / 30 * 60
    rw [hsorted]
    norm_num [hnn, round_eq, round2]

/-- **C2 (counterexample).** The claim asserts the empty-input result carries
`stops_count = 0`; in fact the dict returned on an empty stop list has no
`stops_count` key at all. -/
theorem empty_input_no_stops_count :
    (resultDict (optimize_route (fun _ _ _ _ => 0) DEFAULT_DEPOT [] true)).lookup "stops_count"
      = none := rfl

/-- **C2 (amended).** An empty stop list is not an error: the result has
`route = []`, `total_distance_km = 0` and the message `"No stops provided"`,
but its dict carries only the keys `route`, `total_distance_km`,
`estimated_time_min`, `estimated_fuel_cost` and `message` — no `stops_count`. -/
theorem empty_input_result (trig : TrigCore) (depot : Depot) (rtd : Bool) :
    optimize_route trig depot [] rtd =
      .inl { route := [], total_distance_km := 0, estimated_time_min := 0
             estimated_fuel_cost := 0, message := "No stops provided" } ∧
    resultDict (optimize_route trig depot [] rtd) =
      [("route", .vlist []), ("total_distance_km", .vq 0), ("estimated_time_min", .vq 0),
       ("estimated_fuel_cost", .vq 0), ("message", .vs "No stops provided")] :=
  ⟨rfl, rfl⟩

/-- **C10.** A dict stop with missing `latitude`/`longitude`/`priority` keys is
silently defaulted to coordinates `(0, 0)` and priority `1`: conversion yields
exactly that `Stop`, routing it is identical to routing the explicit
`(0, 0, 1)` stop, and the call returns a full result rather than an error. -/
theorem dict_defaults (trig : TrigCore) (depot : Depot) (s : StopInput)
    (stops : List StopInput) (rtd : Bool)
    (hlat : s.latitude = none) (hlon : s.longitude = none) (hpri : s.priority = none) :
    toStop s = { id := s.id.getD 0, name := s.name.getD "", address := s.address.getD ""
                 latitude := 0, longitude := 0, priority := 1 } ∧
    optimize_route trig depot (s :: stops) rtd =
      optimize_route trig depot
        ({ s with latitude := some 0, longitude := some 0, priority := some 1 } :: stops) rtd ∧
    ∃ r : FullResult, optimize_route trig depot (s :: stops) rtd = .inr r := by
  have hts : toStop s =
      { id := s.id.getD 0, name := s.name.getD "", address := s.address.getD ""
        latitude := 0, longitude := 0, priority := 1 } := by
    simp [toStop, hlat, hlon, hpri]
  refine ⟨hts, ?_, ?_⟩
  · have h2 : toStop { s with latitude := some 0, longitude := some 0, priority := some 1 }
        = toStop s := by
      simp [toStop, hlat, hlon, hpri]
    simp only [optimize_route, fullResult, sortedStops, List.map_cons, h2]
  · exact ⟨_, rfl⟩

/-- Witness for C10 at the all-defaults dict `{}`. -/
theorem dict_defaults_witness :
    ({} : StopInput).latitude = none ∧ ({} : StopInput).longitude = none ∧
    ({} : StopInput).priority = none ∧
    (toStop {} = { id := 0, name := "", address := "", latitude := 0, longitude := 0
                   priority := 1 } ∧
     optimize_route (fun _ _ _ _ => 0) DEFAULT_DEPOT [{}] true =
       optimize_route (fun _ _ _ _ => 0) DEFAULT_DEPOT
         [{ latitude := some 0, longitude := some 0, priority := some 1 }] true ∧
     ∃ r : FullResult,
       optimize_route (fun _ _ _ _ => 0) DEFAULT_DEPOT [{}] true = .inr r) :=
  ⟨rfl, rfl, rfl, dict_defaults (fun _ _ _ _ => 0) DEFAULT_DEPOT {} [] true rfl rfl rfl⟩

/-! ## C3: priority pre-sort and greedy selection, against the spec's words -/

instance : IsTotal Stop priLE := ⟨fun a b => le_total a.priority b.priority⟩

instance : IsTrans Stop priLE := ⟨fun _ _ _ hab hbc => le_trans hab hbc⟩

/-- The running best never increases, and ends at most every scanned distance. -/
theorem selBest_min (trig : TrigCore) (cur : ℚ × ℚ) :
    ∀ (l : List Stop) (b : Stop × ℚ),
      (selBest trig cur b l).2 ≤ b.2 ∧
      ∀ x ∈ l, (selBest trig cur b l).2 ≤
        haversineQ trig cur.1 cur.2 x.latitude x.longitude := by
  intro l
  induction l with
  | nil => exact fun b => ⟨le_refl _, by simp⟩
  | cons s rest ih =>
    intro b
    simp only [selBest]
    by_cases h : haversineQ trig cur.1 cur.2 s.latitude s.longitude < b.2
    · simp only [if_pos h]
      obtain ⟨h1, h2⟩ := ih (s, haversineQ trig cur.1 cur.2 s.latitude s.longitude)
      refine ⟨le_of_lt (lt_of_le_of_lt h1 h), ?_⟩
      intro x hx
      rcases List.mem_cons.mp hx with rfl | hx2
      · exact h1
      · exact h2 x hx2
    · simp only [if_neg h]
      obtain ⟨h1, h2⟩ := ih b
      refine ⟨h1, ?_⟩
      intro x hx
      rcases List.mem_cons.mp hx with rfl | hx2
      · exact le_trans h1 (not_lt.mp h)
      · exact h2 x hx2

/-- First-scanned-wins: the selected stop is the first whose distance is
(at most, hence exactly) the final minimum. -/
theorem selBest_first (trig : TrigCore) (cur : ℚ × ℚ) :
    ∀ (l : List Stop) (b : Stop × ℚ),
      b.2 = haversineQ trig cur.1 cur.2 b.1.latitude b.1.longitude →
      (b.1 :: l).find?
          (fun x => decide (haversineQ trig cur.1 cur.2 x.latitude x.longitude ≤
            (selBest trig cur b l).2)) = some (selBest trig cur b l).1 := by
  intro l
  induction l with
  | nil =>
    intro b hb
    refine List.find?_cons_of_pos _ ?_
    simp only [selBest, decide_eq_true_eq]
    rw [← hb]
  | cons s rest ih =>
    intro b hb
    simp only [selBest]
    by_cases h : haversineQ trig cur.1 cur.2 s.latitude s.longitude < b.2
    · simp only [if_pos h]
      have hmin := (selBest_min trig cur rest
        (s, haversineQ trig cur.1 cur.2 s.latitude s.longitude)).1
      rw [List.find?_cons_of_neg]
      · exact ih (s, haversineQ trig cur.1 cur.2 s.latitude s.longitude) rfl
      · simp only [decide_eq_true_eq, not_le]
        rw [← hb]
        exact lt_of_le_of_lt hmin h
    · simp only [if_neg h]
      have hIH := ih b hb
      by_cases hp : haversineQ trig cur.1 cur.2 b.1.latitude b.1.longitude ≤
          (selBest trig cur b rest).2
      · rw [List.find?_cons_of_pos _ (by simpa using hp)] at hIH
        have heq := Option.some.inj hIH
        exact (List.find?_cons_of_pos _ (by simpa using hp)).trans (by rw [heq])
      · rw [List.find?_cons_of_neg _ (by simpa using hp)] at hIH
        have hminb := (selBest_min trig cur rest b).1
        rw [List.find?_cons_of_neg _ (by simpa using hp)]
        rw [List.find?_cons_of_neg]
        · exact hIH
        · simp only [decide_eq_true_eq, not_le]
          have hlt : (selBest trig cur b rest).2 < b.2 :=
            lt_of_le_of_ne hminb (fun he => hp (le_of_eq (hb.symm.trans he.symm)))
          exact lt_of_lt_of_le hlt (not_lt.mp h)

/-- Stability of the priority pre-sort: for each priority value, the stops of
that priority appear in the sorted list exactly in their original order. -/
theorem sortedStops_stable (stops : List StopInput) (p : ℤ) :
    (sortedStops stops).filter (fun s => decide (s.priority = p)) =
      (stops.map toStop).filter (fun s => decide (s.priority = p)) := by
  have hall : ∀ s ∈ (stops.map toStop).filter (fun s => decide (s.priority = p)),
      s.priority = p := by
    intro s hs
    simpa using (List.mem_filter.mp hs).2
  have hc1 : ((stops.map toStop).filter (fun s => decide (s.priority = p))).Pairwise priLE := by
    refine List.pairwise_of_forall_mem_list ?_
    intro a ha b hb
    show a.priority ≤ b.priority
    rw [hall a ha, hall b hb]
  have h2 : ((stops.map toStop).filter (fun s => decide (s.priority = p))).Sublist
      (sortedStops stops) :=
    List.sublist_insertionSort hc1 (List.filter_sublist _)
  have hallb : ∀ x ∈ (stops.map toStop).filter (fun s => decide (s.priority = p)),
      (fun s : Stop => decide (s.priority = p)) x = true :=
    fun x hx => by simp [hall x hx]
  have h3 : ((stops.map toStop).filter (fun s => decide (s.priority = p))).Sublist
      ((sortedStops stops).filter (fun s => decide (s.priority = p))) := by
    have h4 := h2.filter (fun s => decide (s.priority = p))
    rwa [List.filter_eq_self.mpr hallb] at h4
  refine (h3.eq_of_length ?_).symm
  have hlen1 := List.Perm.countP_eq (fun s => decide (s.priority = p))
    (List.perm_insertionSort priLE (stops.map toStop))
  rw [← List.countP_eq_length_filter, ← List.countP_eq_length_filter]
  exact (hlen1).symm

/-- Modelled from the spec's step 3 ("scan all unvisited stops, compute the
Haversine distance from the current position to each, select the stop with
strictly smallest distance, first encountered wins on exact ties"): the first
stop of the scan list attaining the minimum of all the distances. -/
def specNearest (trig : TrigCore) (cur : ℚ × ℚ) (l : List Stop) : Option Stop :=
  match (l.map (fun s => haversineQ trig cur.1 cur.2 s.latitude s.longitude)).min? with
  | none => none
  | some m => l.find?
      (fun s => decide (haversineQ trig cur.1 cur.2 s.latitude s.longitude = m))

/-- Modelled from the spec's words: repeat the spec's greedy selection,
append the selected stop, remove it from the unvisited stops and move the
current position onto it.  (`fuel`, invoked as the list length, only forces
structural termination.) -/
def specGreedy (trig : TrigCore) : ℕ → (ℚ × ℚ) → List Stop → List Stop
  | 0, _, _ => []
  | fuel + 1, cur, l =>
    match specNearest trig cur l with
    | none => []
    | some s => s :: specGreedy trig fuel (s.latitude, s.longitude) (l.erase s)

theorem find?_congr_mem {α : Type} {p q : α → Bool} :
    ∀ {l : List α}, (∀ x ∈ l, p x = q x) → l.find? p = l.find? q := by
  intro l
  induction l with
  | nil => intro _; rfl
  | cons a l ih =>
    intro h
    by_cases ha : p a = true
    · rw [List.find?_cons_of_pos _ ha, List.find?_cons_of_pos _ ((h a (by simp)) ▸ ha)]
    · rw [List.find?_cons_of_neg _ ha, List.find?_cons_of_neg _ ((h a (by simp)) ▸ ha)]
      exact ih fun x hx => h x (List.mem_cons_of_mem a hx)

/-- The code's fold with `dist < nearest_dist` implements the spec's
"first stop attaining the minimum distance" selection. -/
theorem selectNearest_eq_specNearest (trig : TrigCore) (cur : ℚ × ℚ) (u : Stop)
    (us : List Stop) :
    specNearest trig cur (u :: us) = some (selectNearest trig cur u us).1 := by
  have hcoh := selectNearest_coh trig cur u us
  have hmem := selectNearest_mem trig cur u us
  have hmin := selBest_min trig cur us (u, haversineQ trig cur.1 cur.2 u.latitude u.longitude)
  have hminall : ∀ x ∈ u :: us, (selectNearest trig cur u us).2 ≤
      haversineQ trig cur.1 cur.2 x.latitude x.longitude := by
    intro x hx
    rcases List.mem_cons.mp hx with rfl | hx2
    · exact hmin.1
    · exact hmin.2 x hx2
  have hfirst := selBest_first trig cur us
    (u, haversineQ trig cur.1 cur.2 u.latitude u.longitude) rfl
  have hmineq : ((u :: us).map
      (fun s => haversineQ trig cur.1 cur.2 s.latitude s.longitude)).min? =
      some (selectNearest trig cur u us).2 := by
    haveI : Std.Antisymm (fun x1 x2 : ℚ => x1 ≤ x2) :=
      ⟨by intro a b h1 h2; exact le_antisymm h1 h2⟩
    refine (List.min?_eq_some_iff (fun a => le_refl a) (fun a b => min_choice a b)
      (fun a b c => le_min_iff)).mpr ⟨?_, ?_⟩
    · rw [hcoh]
      exact List.mem_map_of_mem _ hmem
    · intro b hb
      obtain ⟨x, hx, rfl⟩ := List.mem_map.mp hb
      exact hminall x hx
  rw [specNearest, hmineq]
  show (u :: us).find? (fun s => decide (haversineQ trig cur.1 cur.2 s.latitude s.longitude =
    (selectNearest trig cur u us).2)) = some (selectNearest trig cur u us).1
  have hpred : ∀ x ∈ u :: us,
      (decide (haversineQ trig cur.1 cur.2 x.latitude x.longitude =
        (selectNearest trig cur u us).2)) =
      (decide (haversineQ trig cur.1 cur.2 x.latitude x.longitude ≤
        (selectNearest trig cur u us).2)) := by
    intro x hx
    by_cases he : haversineQ trig cur.1 cur.2 x.latitude x.longitude =
        (selectNearest trig cur u us).2
    · simp [he]
    · have : ¬ haversineQ trig cur.1 cur.2 x.latitude x.longitude ≤
          (selectNearest trig cur u us).2 := by
        intro hle
        exact he (le_antisymm hle (hminall x hx))
      simp [he, this]
  rw [find?_congr_mem hpred]
  exact hfirst

/-- The delivery entries of the nearest-neighbour loop visit the stops in
exactly the order the spec's greedy description generates. -/
theorem nnLoop_eq_specGreedy (trig : TrigCore) :
    ∀ (n : ℕ) (l : List Stop) (cur : ℚ × ℚ) (total : ℚ) (ord : ℕ), l.length = n →
      (nnLoop trig n cur l total ord).1.map entryStop = specGreedy trig n cur l := by
  intro n
  induction n with
  | zero =>
    intro l cur total ord hn
    obtain rfl : l = [] := List.eq_nil_of_length_eq_zero hn
    simp [nnLoop, specGreedy]
  | succ n ih =>
    intro l cur total ord hn
    cases l with
    | nil => simp at hn
    | cons u us =>
      have hmem : (selectNearest trig cur u us).1 ∈ u :: us := selectNearest_mem trig cur u us
      have hlen : ((u :: us).erase (selectNearest trig cur u us).1).length = n := by
        rw [List.length_erase_of_mem hmem]
        simp only [List.length_cons] at hn ⊢
        omega
      rw [show nnLoop trig (n + 1) cur (u :: us) total ord =
        ({ order := ord, type := .delivery, id := (selectNearest trig cur u us).1.id
           name := (selectNearest trig cur u us).1.name
           address := (selectNearest trig cur u us).1.address
           latitude := (selectNearest trig cur u us).1.latitude
           longitude := (selectNearest trig cur u us).1.longitude
           priority := some (selectNearest trig cur u us).1.priority
           distance_from_prev := (selectNearest trig cur u us).2
           cumulative_distance := round2 (total + (selectNearest trig cur u us).2) } ::
          (nnLoop trig n ((selectNearest trig cur u us).1.latitude,
              (selectNearest trig cur u us).1.longitude)
            ((u :: us).erase (selectNearest trig cur u us).1)
            (total + (selectNearest trig cur u us).2) (ord + 1)).1,
         (nnLoop trig n ((selectNearest trig cur u us).1.latitude,
              (selectNearest trig cur u us).1.longitude)
            ((u :: us).erase (selectNearest trig cur u us).1)
            (total + (selectNearest trig cur u us).2) (ord + 1)).2) from rfl]
      rw [specGreedy, selectNearest_eq_specNearest]
      rw [List.map_cons, ih _ _ _ _ hlen]
      rfl

/-- **C3.** The pre-sort is the stable ascending-priority sort (a permutation,
pairwise sorted, ties in original input order), and the delivery sequence of
`optimize_route` equals the route generated by the spec's description of the
greedy step: repeatedly take the first unvisited stop (in the
priority-sorted scan order) attaining the strictly smallest Haversine
distance from the current position, then move onto it. -/
theorem greedy_selection (trig : TrigCore) (depot : Depot) (stops : List StopInput)
    (rtd : Bool) :
    ((sortedStops stops).Perm (stops.map toStop) ∧
     List.Pairwise priLE (sortedStops stops) ∧
     (∀ p : ℤ, (sortedStops stops).filter (fun s => decide (s.priority = p)) =
       (stops.map toStop).filter (fun s => decide (s.priority = p)))) ∧
    ((routeOf (optimize_route trig depot stops rtd)).filter
        (fun e => decide (e.type = .delivery))).map entryStop =
      specGreedy trig (sortedStops stops).length (depot.latitude, depot.longitude)
        (sortedStops stops) := by
  refine ⟨⟨List.perm_insertionSort priLE (stops.map toStop),
    List.sorted_insertionSort priLE (stops.map toStop),
    fun p => sortedStops_stable stops p⟩, ?_⟩
  obtain ⟨-, hTy, -, -, -, -⟩ :=
    nnLoop_invariant trig (sortedStops stops).length (sortedStops stops)
      (depot.latitude, depot.longitude) 0 1 rfl
  have hfilter : ∀ tail, (∀ e ∈ tail, e.type ≠ .delivery) →
      ((startEntry depot :: (nnLoop trig (sortedStops stops).length
          (depot.latitude, depot.longitude) (sortedStops stops) 0 1).1 ++ tail).filter
        (fun e => decide (e.type = .delivery))) =
      (nnLoop trig (sortedStops stops).length
        (depot.latitude, depot.longitude) (sortedStops stops) 0 1).1 := by
    intro tail htail
    rw [show startEntry depot :: (nnLoop trig (sortedStops stops).length
        (depot.latitude, depot.longitude) (sortedStops stops) 0 1).1 ++ tail =
      startEntry depot :: ((nnLoop trig (sortedStops stops).length
        (depot.latitude, depot.longitude) (sortedStops stops) 0 1).1 ++ tail) from rfl]
    rw [List.filter_cons_of_neg (by simp [startEntry]), List.filter_append]
    rw [List.filter_eq_self.mpr (fun e he => by simp [hTy e he]),
      List.filter_eq_nil_iff.mpr (fun e he => by simp [htail e he]), List.append_nil]
  cases stops with
  | nil =>
    simp [optimize_route, routeOf, specGreedy, sortedStops, nnLoop, toStop]
  | cons s rest =>
    rw [← nnLoop_eq_specGreedy trig (sortedStops (s :: rest)).length (sortedStops (s :: rest))
      (depot.latitude, depot.longitude) 0 1 rfl]
    cases rtd with
    | false =>
      have hroute : routeOf (optimize_route trig depot (s :: rest) false) =
          startEntry depot :: (nnLoop trig (sortedStops (s :: rest)).length
            (depot.latitude, depot.longitude) (sortedStops (s :: rest)) 0 1).1 ++ [] := by
        simp [optimize_route, routeOf, fullResult]
      rw [hroute, hfilter [] (by simp)]
    | true =>
      have hroute : routeOf (optimize_route trig depot (s :: rest) true) =
          startEntry depot :: (nnLoop trig (sortedStops (s :: rest)).length
            (depot.latitude, depot.longitude) (sortedStops (s :: rest)) 0 1).1 ++
            [returnEntry depot
              (haversineQ trig
                (nnLoop trig (sortedStops (s :: rest)).length (depot.latitude, depot.longitude)
                  (sortedStops (s :: rest)) 0 1).2.2.1
                (nnLoop trig (sortedStops (s :: rest)).length (depot.latitude, depot.longitude)
                  (sortedStops (s :: rest)) 0 1).2.2.2
                depot.latitude depot.longitude)
              ((nnLoop trig (sortedStops (s :: rest)).length (depot.latitude, depot.longitude)
                  (sortedStops (s :: rest)) 0 1).2.1 +
                haversineQ trig
                  (nnLoop trig (sortedStops (s :: rest)).length (depot.latitude, depot.longitude)
                    (sortedStops (s :: rest)) 0 1).2.2.1
                  (nnLoop trig (sortedStops (s :: rest)).length (depot.latitude, depot.longitude)
                    (sortedStops (s :: rest)) 0 1).2.2.2
                  depot.latitude depot.longitude)
              ((nnLoop trig (sortedStops (s :: rest)).length (depot.latitude, depot.longitude)
                  (sortedStops (s :: rest)) 0 1).1.length + 1)] := by
        simp [optimize_route, routeOf, fullResult, List.cons_append]
      rw [hroute, hfilter _ (by simp [returnEntry])]

/-! ## C8: arrival-time estimation (lines 295-327) -/

/-- Python `f"{n:02d}"` for the non-negative values produced below. -/
def pad2 (n : ℤ) : String := (if n < 10 then "0" else "") ++ toString n

/-- The clock formatting of lines 316-318 / 323-325:
`hours = int(t // 60) % 24`, `mins = int(t % 60)`, `f"{hours:02d}:{mins:02d}"`.
Both `int(...)` truncations act on non-negative values, hence are floors. -/
def fmtTime (t : ℚ) : String :=
  pad2 (⌊t / 60⌋ % 24) ++ ":" ++ pad2 ⌊t - 60 * (⌊t / 60⌋ : ℚ)⌋

/-- The `for stop in route:` loop of `estimate_delivery_windows`
(lines 310-325), with `t` the running `current_time_min`. -/
def edwLoop : ℚ → List RouteEntry → List RouteEntry
  | _, [] => []
  | t, e :: rest =>
    let t1 := t + e.distance_from_prev / 30 * 60
    if e.type = .delivery then
      { e with estimated_arrival := some (fmtTime t1)
               estimated_departure := some (fmtTime (t1 + 15)) } :: edwLoop (t1 + 15) rest
    else
      { e with estimated_arrival := some (fmtTime t1) } :: edwLoop t1 rest

/-- `RouteOptimizer.estimate_delivery_windows` (lines 295-327); the
`"HH:MM"` start string is taken already split into its hour and minute
integers (line 307). -/
def estimate_delivery_windows (route : List RouteEntry) (startHour startMin : ℤ) :
    List RouteEntry :=
  edwLoop ((startHour : ℚ) * 60 + (startMin : ℚ)) route

/-- The clock minute count at which entry `k` is reached: the base time, plus
the driving time of the first `k+1` legs, plus 15 service minutes for every
delivery entry strictly before `k`. -/
def arrivalMinutes (base : ℚ) (route : List RouteEntry) (k : ℕ) : ℚ :=
  base + ((route.take (k + 1)).map (fun e => e.distance_from_prev / 30 * 60)).sum +
    15 * (((route.take k).countP (fun e => decide (e.type = .delivery)) : ℕ) : ℚ)

theorem arrivalMinutes_cons_zero (base : ℚ) (e : RouteEntry) (rest : List RouteEntry) :
    arrivalMinutes base (e :: rest) 0 = base + e.distance_from_prev / 30 * 60 := by
  simp [arrivalMinutes]

theorem arrivalMinutes_cons_succ (base : ℚ) (e : RouteEntry) (rest : List RouteEntry) (k : ℕ) :
    arrivalMinutes base (e :: rest) (k + 1) =
      arrivalMinutes (base + e.distance_from_prev / 30 * 60 +
        (if e.type = .delivery then 15 else 0)) rest k := by
  unfold arrivalMinutes
  rw [List.take_succ_cons, List.take_succ_cons, List.map_cons, List.sum_cons, List.countP_cons]
  by_cases hty : e.type = .delivery
  · simp only [hty, decide_eq_true_eq, if_pos]
    push_cast
    ring
  · have : decide (e.type = .delivery) = false := decide_eq_false hty
    simp only [this, if_neg hty]
    push_cast
    ring

theorem edwLoop_getElem? : ∀ (route : List RouteEntry) (t : ℚ) (k : ℕ),
    (edwLoop t route)[k]? = (route[k]?).map (fun e =>
      { e with estimated_arrival := some (fmtTime (arrivalMinutes t route k))
               estimated_departure := if e.type = .delivery
                 then some (fmtTime (arrivalMinutes t route k + 15))
                 else e.estimated_departure }) := by
  intro route
  induction route with
  | nil => intro t k; simp [edwLoop]
  | cons e rest ih =>
    intro t k
    rw [edwLoop]
    by_cases hty : e.type = .delivery
    · simp only [if_pos hty]
      cases k with
      | zero =>
        simp only [List.getElem?_cons_zero, arrivalMinutes_cons_zero]
        simp [hty]
      | succ k =>
        simp only [List.getElem?_cons_succ]
        rw [ih, arrivalMinutes_cons_succ, if_pos hty]
    · simp only [if_neg hty]
      cases k with
      | zero =>
        simp only [List.getElem?_cons_zero, arrivalMinutes_cons_zero]
        simp [hty]
      | succ k =>
        simp only [List.getElem?_cons_succ]
        rw [ih, arrivalMinutes_cons_succ, if_neg hty]
        ring_nf

theorem fmtTime_periodic (t : ℚ) : fmtTime (t + 1440) = fmtTime t := by
  have h1 : ⌊(t + 1440) / 60⌋ = ⌊t / 60⌋ + 24 := by
    rw [show (t + 1440) / 60 = t / 60 + (24 : ℤ) by push_cast; ring]
    exact Int.floor_add_int (t / 60) 24
  unfold fmtTime
  rw [h1]
  have h2 : (⌊t / 60⌋ + 24) % 24 = ⌊t / 60⌋ % 24 := by omega
  have h3 : t + 1440 - 60 * ((⌊t / 60⌋ + 24 : ℤ) : ℚ) = t - 60 * (⌊t / 60⌋ : ℚ) := by
    push_cast
    ring
  rw [h2, h3]

/-- **C8 (amended).** `estimate_delivery_windows` stamps entry `k` with the
arrival clock time `base + (driving time of the first k+1 legs) + 15·(number
of delivery entries before k)` — the cumulative driving time *plus* the
service time already spent, not driving time alone — and stamps a departure
time (arrival + 15) only on `delivery` entries (others keep their previous
`estimated_departure`, normally absent).  All clock formatting wraps modulo
1440 minutes with no day indication. -/
theorem delivery_windows (route : List RouteEntry) (startHour startMin : ℤ) :
    (∀ k : ℕ, (estimate_delivery_windows route startHour startMin)[k]? =
      (route[k]?).map (fun e =>
        { e with
          estimated_arrival := some (fmtTime
            (arrivalMinutes ((startHour : ℚ) * 60 + (startMin : ℚ)) route k))
          estimated_departure := if e.type = .delivery
            then some (fmtTime
              (arrivalMinutes ((startHour : ℚ) * 60 + (startMin : ℚ)) route k + 15))
            else e.estimated_departure })) ∧
    (∀ t : ℚ, fmtTime (t + 1440) = fmtTime t) :=
  ⟨fun k => edwLoop_getElem? route ((startHour : ℚ) * 60 + (startMin : ℚ)) k,
   fmtTime_periodic⟩

/-- **C8 (counterexample).** Arrival times include the 15-minute service stops
of earlier deliveries, not the cumulative driving time alone: on a route of
two zero-distance deliveries starting at 09:00, the third entry's arrival is
stamped 09:15, while start-plus-driving-time would be 09:00. -/
theorem delivery_windows_cx :
    ∃ e, (estimate_delivery_windows
        [startEntry DEFAULT_DEPOT,
         ⟨1, .delivery, 1, "", "", 0, 0, some 1, 0, 0, none, none⟩,
         ⟨2, .delivery, 2, "", "", 0, 0, some 1, 0, 0, none, none⟩] 9 0)[2]? = some e ∧
      e.estimated_arrival = some "09:15" ∧
      fmtTime ((9 : ℚ) * 60 + 0 +
        (([startEntry DEFAULT_DEPOT,
           (⟨1, .delivery, 1, "", "", 0, 0, some 1, 0, 0, none, none⟩ : RouteEntry),
           ⟨2, .delivery, 2, "", "", 0, 0, some 1, 0, 0, none, none⟩].take 3).map
          (fun x => x.distance_from_prev / 30 * 60)).sum) = "09:00" ∧
      ("09:15" : String) ≠ "09:00" := by
  have hfmt540 : fmtTime 540 = "09:00" := by
    have hf : ⌊(540 : ℚ) / 60⌋ = 9 := by norm_num
    rw [fmtTime, hf]
    norm_num [pad2]
    rfl
  have hfmt555 : fmtTime 555 = "09:15" := by
    have hf : ⌊(555 : ℚ) / 60⌋ = 9 := by
      rw [Int.floor_eq_iff]; norm_num
    rw [fmtTime, hf]
    have hm : ⌊(555 : ℚ) - 60 * ((9 : ℤ) : ℚ)⌋ = 15 := by norm_num
    rw [hm]
    norm_num [pad2]
    rfl
  have hfmt570 : fmtTime 570 = "09:30" := by
    have hf : ⌊(570 : ℚ) / 60⌋ = 9 := by
      rw [Int.floor_eq_iff]; norm_num
    rw [fmtTime, hf]
    have hm : ⌊(570 : ℚ) - 60 * ((9 : ℤ) : ℚ)⌋ = 30 := by norm_num
    rw [hm]
    norm_num [pad2]
    rfl
  have hedw : estimate_delivery_windows
      [startEntry DEFAULT_DEPOT,
       ⟨1, .delivery, 1, "", "", 0, 0, some 1, 0, 0, none, none⟩,
       ⟨2, .delivery, 2, "", "", 0, 0, some 1, 0, 0, none, none⟩] 9 0 =
      [⟨0, .start, 0, "Depo", "Beko Merkez Depo", 408219 / 10000, 293094 / 10000, none, 0, 0,
        some "09:00", none⟩,
       ⟨1, .delivery, 1, "", "", 0, 0, some 1, 0, 0, some "09:00", some "09:15"⟩,
       ⟨2, .delivery, 2, "", "", 0, 0, some 1, 0, 0, some "09:15", some "09:30"⟩] := by
    rw [estimate_delivery_windows]
    norm_num [edwLoop, startEntry, DEFAULT_DEPOT, hfmt540, hfmt555, hfmt570]
    exact fun h => nomatch h
  refine ⟨⟨2, .delivery, 2, "", "", 0, 0, some 1, 0, 0, some "09:15", some "09:30"⟩,
    ?_, rfl, ?_, by decide⟩
  · rw [hedw]
    rfl
  · norm_num [hfmt540, startEntry]

/-! ## C5: zone grouping (lines 249-293)

`group_by_zone` reads `stop['id']`, `stop['latitude']` and `stop['longitude']`
of each stop dict directly (raising `KeyError` on a missing key, a case no
claim covers), so its input is modelled by the total `Stop` record.  Zones are
listed in creation order (`"Zone 1"`, `"Zone 2"`, …, the dict's insertion
order). -/

/-- The inner `for other in stops:` scan of `group_by_zone` (lines 278-289):
thread the `assigned` id set, collect every not-yet-assigned stop within
`zone_radius_km` of the seed. -/
def zoneScan (trig : TrigCore) (rad : ℚ) (seed : Stop) :
    List Stop → List ℤ → List Stop × List ℤ
  | [], assigned => ([], assigned)
  | o :: rest, assigned =>
    if o.id ∈ assigned then zoneScan trig rad seed rest assigned
    else if haversineQ trig seed.latitude seed.longitude o.latitude o.longitude ≤ rad then
      let r := zoneScan trig rad seed rest (o.id :: assigned)
      (o :: r.1, r.2)
    else zoneScan trig rad seed rest assigned

/-- The outer `for stop in stops:` loop of `group_by_zone` (lines 268-291). -/
def gbzLoop (trig : TrigCore) (rad : ℚ) (allStops : List Stop) :
    List Stop → List ℤ → List (List Stop)
  | [], _ => []
  | s :: rest, assigned =>
    if s.id ∈ assigned then gbzLoop trig rad allStops rest assigned
    else
      let r := zoneScan trig rad s allStops (s.id :: assigned)
      (s :: r.1) :: gbzLoop trig rad allStops rest r.2

/-- `RouteOptimizer.group_by_zone` (lines 249-293). -/
def group_by_zone (trig : TrigCore) (stops : List Stop) (zone_radius_km : ℚ := 5) :
    List (List Stop) :=
  match stops with
  | [] => []
  | _ => gbzLoop trig zone_radius_km stops stops []

/-- **C5 (counterexample).** Assignment is tracked by `stop['id']`, so of two
distinct stops sharing an id only the first enters any zone: with stops
`a = (id 1, (0,0))` and `b = (id 1, (50,50))`, the result is the single zone
`[a]` and `b` appears in no zone, refuting "every input stop appears in
exactly one zone". -/
theorem zone_duplicate_id_dropped :
    group_by_zone (fun _ _ _ _ => 100) [⟨1, "a", "", 0, 0, 1⟩, ⟨1, "b", "", 50, 50, 1⟩] 5 =
      [[⟨1, "a", "", 0, 0, 1⟩]] ∧
    (⟨1, "b", "", 50, 50, 1⟩ : Stop) ∉
      (group_by_zone (fun _ _ _ _ => 100)
        [⟨1, "a", "", 0, 0, 1⟩, ⟨1, "b", "", 50, 50, 1⟩] 5).flatten := by
  have h1 : group_by_zone (fun _ _ _ _ => 100)
      [⟨1, "a", "", 0, 0, 1⟩, ⟨1, "b", "", 50, 50, 1⟩] 5 = [[⟨1, "a", "", 0, 0, 1⟩]] := by
    rw [group_by_zone]
    · rw [gbzLoop]
      norm_num [zoneScan, gbzLoop]
    · exact fun h => nomatch h
  refine ⟨h1, ?_⟩
  rw [h1]
  simp

theorem zoneScan_eq (trig : TrigCore) (rad : ℚ) (seed : Stop) :
    ∀ (scan : List Stop) (assigned : List ℤ), (scan.map Stop.id).Nodup →
      (zoneScan trig rad seed scan assigned).1 =
        scan.filter (fun o => decide (o.id ∉ assigned) &&
          decide (haversineQ trig seed.latitude seed.longitude o.latitude o.longitude ≤ rad)) ∧
      ∀ x : ℤ, x ∈ (zoneScan trig rad seed scan assigned).2 ↔
        x ∈ assigned ∨ x ∈ ((zoneScan trig rad seed scan assigned).1.map Stop.id) := by
  intro scan
  induction scan with
  | nil =>
    intro assigned _
    exact ⟨rfl, fun x => by simp [zoneScan]⟩
  | cons o rest ih =>
    intro assigned hN
    rw [List.map_cons, List.nodup_cons] at hN
    obtain ⟨hN1, hN2⟩ := hN
    by_cases h1 : o.id ∈ assigned
    · simp only [zoneScan, if_pos h1]
      obtain ⟨ihf, ihs⟩ := ih assigned hN2
      refine ⟨?_, ihs⟩
      rw [List.filter_cons_of_neg (by simp [h1]), ihf]
    · by_cases h2 : haversineQ trig seed.latitude seed.longitude o.latitude o.longitude ≤ rad
      · simp only [zoneScan, if_neg h1, if_pos h2]
        obtain ⟨ihf, ihs⟩ := ih (o.id :: assigned) hN2
        constructor
        · rw [List.filter_cons_of_pos (by simp [h1, h2]), ihf]
          refine congrArg (fun t => o :: t) (List.filter_congr ?_)
          intro x hx
          have hxid : x.id ≠ o.id := fun he => hN1 (he ▸ List.mem_map_of_mem Stop.id hx)
          rw [show decide (x.id ∉ o.id :: assigned) = decide (x.id ∉ assigned) from
            decide_eq_decide.mpr (by simp [List.mem_cons, hxid])]
        · intro x
          rw [ihs x]
          simp only [List.mem_cons, List.map_cons]
          tauto
      · simp only [zoneScan, if_neg h1, if_neg h2]
        obtain ⟨ihf, ihs⟩ := ih assigned hN2
        refine ⟨?_, ihs⟩
        rw [List.filter_cons_of_neg (by simp [h2]), ihf]

theorem count_filter_ite {α : Type} [DecidableEq α] (p : α → Bool) (x : α) (l : List α) :
    List.count x (l.filter p) = if p x = true then List.count x l else 0 := by
  by_cases h : p x = true
  · rw [if_pos h, List.count_filter h]
  · rw [if_neg h]
    exact List.count_eq_zero.mpr (fun hc => h (List.of_mem_filter hc))

/-- Master invariant of the outer zone loop, for pairwise-distinct stop ids:
the zones flatten to exactly the not-yet-assigned stops, each zone is its seed
followed by stops within the radius, every zone member is an unassigned stop
of the input, and every member of a later zone is strictly outside the radius
of every earlier seed. -/
theorem gbzLoop_invariant (trig : TrigCore) (rad : ℚ) (allStops : List Stop)
    (hN : (allStops.map Stop.id).Nodup) :
    ∀ (rest : List Stop) (assigned : List ℤ),
      (∀ x ∈ rest, x ∈ allStops) →
      (∀ x ∈ allStops, x.id ∉ assigned → x ∈ rest) →
      ((gbzLoop trig rad allStops rest assigned).flatten.Perm
        (allStops.filter (fun x => decide (x.id ∉ assigned)))) ∧
      (∀ z ∈ gbzLoop trig rad allStops rest assigned, ∃ s zs, z = s :: zs ∧
        ∀ x ∈ zs, haversineQ trig s.latitude s.longitude x.latitude x.longitude ≤ rad) ∧
      (∀ z ∈ gbzLoop trig rad allStops rest assigned, ∀ x ∈ z,
        x ∈ allStops ∧ x.id ∉ assigned) ∧
      List.Pairwise (fun z1 z2 => ∀ x ∈ z2, ∀ s1 ∈ z1.head?,
        rad < haversineQ trig s1.latitude s1.longitude x.latitude x.longitude)
        (gbzLoop trig rad allStops rest assigned) := by
  have hinj := List.inj_on_of_nodup_map hN
  have hNodupAll : allStops.Nodup := hN.of_map
  intro rest
  induction rest with
  | nil =>
    intro assigned _ hinv
    have hf : allStops.filter (fun x => decide (x.id ∉ assigned)) = [] := by
      rw [List.filter_eq_nil_iff]
      intro a ha
      simp only [decide_eq_true_eq, not_not]
      by_contra hni
      exact absurd (hinv a ha hni) (List.not_mem_nil a)
    refine ⟨?_, by simp [gbzLoop], by simp [gbzLoop], by simp [gbzLoop]⟩
    rw [show gbzLoop trig rad allStops [] assigned = [] from rfl, hf]
    simp
  | cons s rest' ih =>
    intro assigned hsub hinv
    by_cases hs : s.id ∈ assigned
    · rw [show gbzLoop trig rad allStops (s :: rest') assigned =
        gbzLoop trig rad allStops rest' assigned from by rw [gbzLoop, if_pos hs]]
      refine ih assigned (fun x hx => hsub x (List.mem_cons_of_mem s hx)) ?_
      intro x hx hni
      rcases List.mem_cons.mp (hinv x hx hni) with rfl | h
      · exact absurd hs hni
      · exact h
    · obtain ⟨hzsEq, hA'⟩ := zoneScan_eq trig rad s allStops (s.id :: assigned) hN
      set zs := (zoneScan trig rad s allStops (s.id :: assigned)).1 with hzs
      set A' := (zoneScan trig rad s allStops (s.id :: assigned)).2 with hA
      rw [show gbzLoop trig rad allStops (s :: rest') assigned =
        (s :: zs) :: gbzLoop trig rad allStops rest' A' from by rw [gbzLoop, if_neg hs]]
      have hs_in : s ∈ allStops := hsub s (List.mem_cons_self s rest')
      have hA0sub : ∀ x : ℤ, x ∈ assigned → x ∈ A' :=
        fun x hx => (hA' x).mpr (Or.inl (List.mem_cons_of_mem _ hx))
      have hsidA' : s.id ∈ A' := (hA' s.id).mpr (Or.inl (List.mem_cons_self _ _))
      have hzsmem : ∀ x ∈ zs, x ∈ allStops ∧ x.id ∉ s.id :: assigned ∧
          haversineQ trig s.latitude s.longitude x.latitude x.longitude ≤ rad := by
        intro x hx
        rw [hzsEq] at hx
        have h1 := List.mem_filter.mp hx
        have h2 := h1.2
        simp only [Bool.and_eq_true, decide_eq_true_eq] at h2
        exact ⟨h1.1, h2.1, h2.2⟩
      have hzsid : ∀ x ∈ zs, x.id ∈ A' :=
        fun x hx => (hA' x.id).mpr (Or.inr (List.mem_map_of_mem Stop.id hx))
      have hmemzs : ∀ x ∈ allStops, x.id ∉ s.id :: assigned →
          haversineQ trig s.latitude s.longitude x.latitude x.longitude ≤ rad → x ∈ zs := by
        intro x hx h1 h2
        rw [hzsEq]
        exact List.mem_filter.mpr ⟨hx, by simp [h1, h2]⟩
      have hinv' : ∀ x ∈ allStops, x.id ∉ A' → x ∈ rest' := by
        intro x hx hni
        have h0 : x.id ∉ s.id :: assigned := fun hc => hni ((hA' x.id).mpr (Or.inl hc))
        have h1 : x.id ∉ assigned := fun hc => h0 (List.mem_cons_of_mem _ hc)
        rcases List.mem_cons.mp (hinv x hx h1) with rfl | h
        · exact absurd (List.mem_cons_self x.id assigned) h0
        · exact h
      obtain ⟨ihPerm, ihShape, ihMem, ihPair⟩ :=
        ih A' (fun x hx => hsub x (List.mem_cons_of_mem s hx)) hinv'
      refine ⟨?_, ?_, ?_, ?_⟩
      · rw [List.flatten_cons, List.perm_iff_count]
        intro x
        rw [List.count_append, ihPerm.count_eq, List.count_cons,
          hzsEq, count_filter_ite, count_filter_ite, count_filter_ite]
        by_cases hxall : x ∈ allStops
        · have hcx : List.count x allStops = 1 := List.count_eq_one_of_mem hNodupAll hxall
          by_cases hxs : x = s
          · subst hxs
            have h1 : ¬ (x.id ∉ x.id :: assigned) := by simp
            simp [h1, hsidA', hs, hcx]
          · have hxid : x.id ≠ s.id := fun he => hxs (hinj hxall hs_in he)
            have hxsb : (s == x) = false := by
              simp only [beq_eq_false_iff_ne, ne_eq]
              exact fun he => hxs he.symm
            by_cases hxa : x.id ∈ assigned
            · have h1 : x.id ∈ s.id :: assigned := List.mem_cons_of_mem _ hxa
              have h2 : x.id ∈ A' := hA0sub _ hxa
              simp [h1, h2, hxa, hxsb]
            · have h0 : x.id ∉ s.id :: assigned := by simp [hxid, hxa]
              by_cases hxd : haversineQ trig s.latitude s.longitude x.latitude
                  x.longitude ≤ rad
              · have h2 : x.id ∈ A' := hzsid x (hmemzs x hxall h0 hxd)
                simp [h0, hxd, h2, hxa, hxsb, hcx]
              · have h2 : x.id ∉ A' := by
                  intro hc
                  rcases (hA' x.id).mp hc with hc1 | hc2
                  · exact h0 hc1
                  · obtain ⟨y, hy, hyid⟩ := List.mem_map.mp hc2
                    have hyx : y = x := hinj (hzsmem y hy).1 hxall hyid
                    exact hxd (hyx ▸ (hzsmem y hy).2.2)
                simp [h0, hxd, h2, hxa, hxsb, hcx]
        · have hc0 : List.count x allStops = 0 := List.count_eq_zero.mpr hxall
          have hxsb : (s == x) = false := by
            simp only [beq_eq_false_iff_ne, ne_eq]
            exact fun he => hxall (he ▸ hs_in)
          simp [hc0, hxsb]
      · intro z hz
        rcases List.mem_cons.mp hz with rfl | hz2
        · exact ⟨s, zs, rfl, fun x hx => (hzsmem x hx).2.2⟩
        · exact ihShape z hz2
      · intro z hz x hx
        rcases List.mem_cons.mp hz with rfl | hz2
        · rcases List.mem_cons.mp hx with rfl | hx2
          · exact ⟨hs_in, hs⟩
          · obtain ⟨h1, h2, -⟩ := hzsmem x hx2
            exact ⟨h1, fun hc => h2 (List.mem_cons_of_mem _ hc)⟩
        · obtain ⟨h1, h2⟩ := ihMem z hz2 x hx
          exact ⟨h1, fun hc => h2 (hA0sub _ hc)⟩
      · refine List.Pairwise.cons ?_ ihPair
        intro z2 hz2 x hx s1 hs1
        have hs1eq : s1 = s := (by simpa using hs1 : s = s1).symm
        subst hs1eq
        obtain ⟨hxall, hxA'⟩ := ihMem z2 hz2 x hx
        by_contra hle
        rw [not_lt] at hle
        have h0 : x.id ∉ s1.id :: assigned := fun hc => hxA' ((hA' x.id).mpr (Or.inl hc))
        exact hxA' (hzsid x (hmemzs x hxall h0 hle))

/-- **C5 (amended).** If the stop ids are pairwise distinct, `group_by_zone`
is a genuine partition: the zones flatten to a permutation of the input (every
stop in exactly one zone, none in two), every zone is its seed followed only
by stops within `zone_radius_km` of that seed, and every stop of a later zone
is strictly outside the radius of every earlier seed (a stop within radius of
two seeds is claimed by the zone opened first). -/
theorem zone_partition (trig : TrigCore) (rad : ℚ) (stops : List Stop)
    (hids : (stops.map Stop.id).Nodup) :
    (group_by_zone trig stops rad).flatten.Perm stops ∧
    (∀ z ∈ group_by_zone trig stops rad, ∃ s zs, z = s :: zs ∧
      ∀ x ∈ zs, haversineQ trig s.latitude s.longitude x.latitude x.longitude ≤ rad) ∧
    List.Pairwise (fun z1 z2 => ∀ x ∈ z2, ∀ s1 ∈ z1.head?,
      rad < haversineQ trig s1.latitude s1.longitude x.latitude x.longitude)
      (group_by_zone trig stops rad) := by
  cases stops with
  | nil => exact ⟨by simp [group_by_zone], by simp [group_by_zone], by simp [group_by_zone]⟩
  | cons s rest =>
    obtain ⟨hPerm, hShape, -, hPair⟩ :=
      gbzLoop_invariant trig rad (s :: rest) hids (s :: rest) []
        (fun x hx => hx) (fun x hx _ => hx)
    have hgroup : group_by_zone trig (s :: rest) rad =
        gbzLoop trig rad (s :: rest) (s :: rest) [] := rfl
    rw [hgroup]
    refine ⟨?_, hShape, hPair⟩
    refine hPerm.trans ?_
    rw [List.filter_eq_self.mpr (fun a _ => by simp)]

/-- Witness for C5: two distinct-id stops, constant distance core 1 km,
radius 5 km (both land in the first zone). -/
theorem zone_partition_witness :
    (([⟨1, "a", "", 0, 0, 1⟩, ⟨2, "b", "", 1, 1, 1⟩] : List Stop).map Stop.id).Nodup ∧
    ((group_by_zone (fun _ _ _ _ => 1) [⟨1, "a", "", 0, 0, 1⟩, ⟨2, "b", "", 1, 1, 1⟩]
        5).flatten.Perm [⟨1, "a", "", 0, 0, 1⟩, ⟨2, "b", "", 1, 1, 1⟩] ∧
     (∀ z ∈ group_by_zone (fun _ _ _ _ => 1)
        [⟨1, "a", "", 0, 0, 1⟩, ⟨2, "b", "", 1, 1, 1⟩] 5, ∃ s zs, z = s :: zs ∧
        ∀ x ∈ zs, haversineQ (fun _ _ _ _ => 1) s.latitude s.longitude
          x.latitude x.longitude ≤ 5) ∧
     List.Pairwise (fun z1 z2 => ∀ x ∈ z2, ∀ s1 ∈ z1.head?,
        (5 : ℚ) < haversineQ (fun _ _ _ _ => 1) s1.latitude s1.longitude
          x.latitude x.longitude)
        (group_by_zone (fun _ _ _ _ => 1)
          [⟨1, "a", "", 0, 0, 1⟩, ⟨2, "b", "", 1, 1, 1⟩] 5)) :=
  ⟨by simp, zone_partition (fun _ _ _ _ => 1)
    5 [⟨1, "a", "", 0, 0, 1⟩, ⟨2, "b", "", 1, 1, 1⟩] (by simp)⟩

/-! ## The real-valued haversine formula (lines 77-101)

Floating-point arithmetic is idealised as real arithmetic. -/

/-- `math.radians` (line 90-93). -/
noncomputable def radians (x : ℝ) : ℝ := x * Real.pi / 180

/-- `math.atan2(y, x)`, by the C-library case analysis. -/
noncomputable def atan2 (y x : ℝ) : ℝ :=
  if 0 < x then Real.arctan (y / x)
  else if x < 0 ∧ 0 ≤ y then Real.arctan (y / x) + Real.pi
  else if x < 0 ∧ y < 0 then Real.arctan (y / x) - Real.pi
  else if x = 0 ∧ 0 < y then Real.pi / 2
  else if x = 0 ∧ y < 0 then -(Real.pi / 2)
  else 0

/-- Python `round(x, 2)` over reals. -/
noncomputable def round2R (x : ℝ) : ℝ := (round (x * 100) : ℤ) / 100

/-- The intermediate `a` of the Haversine formula (lines 96-97). -/
noncomputable def havA (lat1 lon1 lat2 lon2 : ℝ) : ℝ :=
  Real.sin (radians (lat2 - lat1) / 2) ^ 2 +
    Real.cos (radians lat1) * Real.cos (radians lat2) * Real.sin (radians (lon2 - lon1) / 2) ^ 2

/-- `RouteOptimizer.haversine_distance` (lines 77-101):
`c = 2 * atan2(sqrt(a), sqrt(1 - a))`, `distance = 6371 * c`, rounded to 2
decimal places. -/
noncomputable def haversine_distance (lat1 lon1 lat2 lon2 : ℝ) : ℝ :=
  round2R (6371 *
    (2 * atan2 (Real.sqrt (havA lat1 lon1 lat2 lon2)) (Real.sqrt (1 - havA lat1 lon1 lat2 lon2))))

theorem havA_symm (lat1 lon1 lat2 lon2 : ℝ) :
    havA lat1 lon1 lat2 lon2 = havA lat2 lon2 lat1 lon1 := by
  unfold havA radians
  have h1 : (lat1 - lat2) * Real.pi / 180 / 2 = -((lat2 - lat1) * Real.pi / 180 / 2) := by ring
  have h2 : (lon1 - lon2) * Real.pi / 180 / 2 = -((lon2 - lon1) * Real.pi / 180 / 2) := by ring
  rw [h1, h2, Real.sin_neg, Real.sin_neg]
  ring

/-- **C9.** `haversine_distance` is symmetric in its two points, and the
distance from any point to itself is `0`. -/
theorem haversine_symm_self :
    (∀ lat1 lon1 lat2 lon2 : ℝ,
        haversine_distance lat1 lon1 lat2 lon2 = haversine_distance lat2 lon2 lat1 lon1) ∧
      (∀ lat lon : ℝ, haversine_distance lat lon lat lon = 0) := by
  constructor
  · intro lat1 lon1 lat2 lon2
    unfold haversine_distance
    rw [havA_symm]
  · intro lat lon
    have ha : havA lat lon lat lon = 0 := by
      unfold havA radians
      simp
    unfold haversine_distance
    rw [ha]
    have h01 : atan2 (Real.sqrt 0) (Real.sqrt (1 - 0)) = 0 := by
      unfold atan2
      rw [Real.sqrt_zero, sub_zero, Real.sqrt_one]
      rw [if_pos one_pos]
      simp
    rw [h01]
    unfold round2R
    norm_num

end BekoSIRS
